import Mathlib

/-!
# hadroncorp/ludwig: the in-process event bus (internal/event)

A shallow embedding of `internal/event` (event.go, listener.go, config.go, bus.go,
bus_channel.go, and the interceptors of bus_channel_test.go) and theorems about it.

Modelling conventions
* A Go `error` result is an `Option Error`; `none` is `nil`.
* A listener may have side effects; they are modelled as a transformer of a `Log`
  (the "world"), and a listener may return an error or panic (`Outcome`).  Listeners are
  total functions: a listener that never returns is not modelled.
* A context is sampled when it is used: `err` is what `ctx.Err()` returns at that moment.
  Time does not pass in the model.
* Go maps are association lists with unique keys (`mapGet`, `mapSet`, `mapDelete`); the loop
  of `Shutdown` visits the entries in list order (Go leaves the order open).
* Unbuffered channels live in a heap `chans` (index = channel, value = closed flag);
  a send is a rendezvous with a worker blocked at its receive.
* `sync.WaitGroup` is its counter (a `Nat`); `Done` on a zero counter panics, `Wait` is
  enabled only when the counter is zero.  The counter of Go is an int32 and `Add` panics
  when it would pass `maxWaitGroup`; the model has no such panic, so it agrees with Go on the
  runs whose counters stay within `maxWaitGroup`.  `sync.RWMutex` is the number of read holders and
  the write flag; a waiting writer does not hold back new readers.
* Every statement of `Publish`, `Subscribe` and `Shutdown` is one atomic step of a caller
  (`stepCall`, one constructor of `PC` for each statement); the worker goroutine has the steps
  of `stepWorker`; `step` interleaves callers and workers under a schedule (`Label`), and an
  unrecovered panic stops the process; `runCall` runs one call alone.
* `Runtime.execs` is a history variable: it records each call of a listener by a worker and
  is read by no statement of the program.
-/

namespace Ludwig

/-! ## Go maps keyed by strings -/

/-- Map read `m[k]` with the comma-ok result. -/
def mapGet {α : Type} (m : List (String × α)) (k : String) : Option α :=
  match m with
  | [] => none
  | (k1, v) :: rest => if k1 = k then some v else mapGet rest k

/-- Map write `m[k] = v`. -/
def mapSet {α : Type} (m : List (String × α)) (k : String) (v : α) : List (String × α) :=
  match m with
  | [] => [(k, v)]
  | (k1, v1) :: rest => if k1 = k then (k, v) :: rest else (k1, v1) :: mapSet rest k v

/-- Map removal `delete(m, k)`. -/
def mapDelete {α : Type} (m : List (String × α)) (k : String) : List (String × α) :=
  match m with
  | [] => []
  | (k1, v1) :: rest => if k1 = k then mapDelete rest k else (k1, v1) :: mapDelete rest k

/-! ## event.go -/

/-- The concrete event `eventInternal`: a topic and a binary payload. -/
structure Event where
  topic : String
  msg : List (Fin 256)
  deriving DecidableEq

/-- The functional option type `Option` of event.go. -/
abbrev EventOption := Event → Event

/-- Setter `setTopic`. -/
def Event.setTopic (e : Event) (topic : String) : Event := { e with topic := topic }

/-- Setter `setMessage`. -/
def Event.setMessage (e : Event) (msg : List (Fin 256)) : Event := { e with msg := msg }

/-- Option `WithTopic`. -/
def WithTopic (topic : String) : EventOption := fun e => e.setTopic topic

/-- Option `WithMessage`. -/
def WithMessage (msg : List (Fin 256)) : EventOption := fun e => e.setMessage msg

/-- Constructor `NewEvent`: the zero event with every option applied in order. -/
def NewEvent (opts : List EventOption) : Event :=
  opts.foldl (fun ev opt => opt ev) { topic := "", msg := [] }

/-- Accessor `Topic`. -/
def Event.Topic (e : Event) : String := e.topic

/-- Accessor `Message`. -/
def Event.Message (e : Event) : List (Fin 256) := e.msg

/-! ## context (standard library) -/

/-- The two errors a standard context reports once it is done. -/
inductive CtxErr where
  | Canceled
  | DeadlineExceeded
  deriving DecidableEq

/-- A context sampled at the moment it is used: `err` is `ctx.Err()` (`none` while
`ctx.Done()` is still open), `timeout` the time left until its deadline (nanoseconds),
`values` its key/value pairs. -/
structure Context where
  err : Option CtxErr
  timeout : Option Int
  values : List (String × String)
  deriving DecidableEq

/-- The root context `context.Background()`. -/
def Background : Context := { err := none, timeout := none, values := [] }

/-- Derived context `context.WithValue`. -/
def WithValue (parent : Context) (k v : String) : Context :=
  { parent with values := (k, v) :: parent.values }

/-- The context `WithTimeout` makes when the parent has no earlier deadline: it carries the
new deadline; it is done with the parent's error if the parent is done, and otherwise with
DeadlineExceeded if the duration is not positive. -/
def withDeadline (parent : Context) (d : Int) : Context :=
  { parent with
    timeout := some d
    err := (match parent.err with
      | some e => some e
      | none => if d ≤ 0 then some CtxErr.DeadlineExceeded else none) }

/-- Derived context `context.WithTimeout(parent, d)`: when the parent's deadline is earlier
the result is the parent's context made cancellable (same deadline, same error); otherwise
it is `withDeadline`. -/
def WithTimeout (parent : Context) (d : Int) : Context :=
  match parent.timeout with
  | some t => if t < d then parent else withDeadline parent d
  | none => withDeadline parent d

/-! ## bus.go, listener.go, config.go -/

/-- Go `error` values seen by the bus. -/
inductive Error where
  | ErrBusClosed
  | ErrNoSubscribers
  | ctx (e : CtxErr)
  | other (msg : String)
  deriving DecidableEq

/-- The world the listeners act on. -/
abbrev Log := List String

/-- How a listener call ends: it returns (an error or nil) or it panics. -/
inductive Outcome where
  | ret (err : Option Error)
  | panic (v : String)
  deriving DecidableEq

/-- The type `ListenerFunc`. -/
abbrev ListenerFunc := Context → Event → Log → Log × Outcome

/-- The type `ListenerInterceptorFunc`. -/
abbrev ListenerInterceptorFunc := ListenerFunc → ListenerFunc

/-- The structure `BusConfig`. -/
structure BusConfig where
  ListenerTimeout : Int
  ListenerInterceptors : List ListenerInterceptorFunc

/-- The type `BusOption`. -/
abbrev BusOption := BusConfig → BusConfig

/-- Option `WithListenerTimeout`. -/
def WithListenerTimeout (timeout : Int) : BusOption :=
  fun cfg => { cfg with ListenerTimeout := timeout }

/-- Option `WithListenerInterceptors`: appends to the global interceptors. -/
def WithListenerInterceptors (interceptors : List ListenerInterceptorFunc) : BusOption :=
  fun cfg => { cfg with ListenerInterceptors := cfg.ListenerInterceptors ++ interceptors }

/-! ## bus_channel.go: data -/

/-- A `sync.RWMutex`: the number of read holders and whether the write lock is held. -/
structure RWMutex where
  readers : Nat
  writer : Bool
  deriving DecidableEq

/-- The structure `BusChannel`; channels are indices into the channel heap. -/
structure BusChannel where
  config : BusConfig
  topicChannels : List (String × Nat)
  topicChannelsLock : RWMutex
  inFlightBusProcWaitGroup : Nat
  isClosed : Bool
  topicListenerWorkerNum : List (String × Nat)
  inFlightListenerProcWaitGroup : Nat

/-- The structure `ctxEventPair`. -/
structure ctxEventPair where
  ctx : Context
  event : Event
  deriving DecidableEq

/-- The constant `_listenerExecTimeout`: thirty seconds in nanoseconds. -/
def _listenerExecTimeout : Int := 30 * 1000000000

/-- The helper `lo.CoalesceOrEmpty` on two durations: the first non-zero one. -/
def CoalesceOrEmpty (a b : Int) : Int := if a ≠ 0 then a else b

/-- Values a goroutine of the bus can panic with. -/
inductive PanicVal where
  | sendOnClosedChannel
  | closeOfClosedChannel
  | negativeWaitGroupCounter
  deriving DecidableEq

/-- The states of the worker goroutine started by `Subscribe`
(`for pair := range topicChannel { b.execListener(pair, listenerFunc) }`). -/
inductive WorkerState where
  | idle
  | running (pair : ctxEventPair)
  | finishing (o : Outcome)
  | exited
  deriving DecidableEq

/-- A worker goroutine: the channel it ranges over, its effective listener, its state. -/
structure Worker where
  topicChannel : Nat
  listenerFunc : ListenerFunc
  state : WorkerState

/-- Everything the goroutines share: the bus, the channel heap, the workers, the world the
listeners write to and the history `execs` of listener invocations (worker, pair). -/
structure Runtime where
  b : BusChannel
  chans : List Bool
  workers : List Worker
  world : Log
  execs : List (Nat × ctxEventPair)

/-- Constructor `NewBusChannel`: the configuration with every option applied, empty maps. -/
def NewBusChannel (opts : List BusOption) : BusChannel :=
  { config := opts.foldl (fun cfg opt => opt cfg) { ListenerTimeout := 0, ListenerInterceptors := [] }
    topicChannels := []
    topicChannelsLock := { readers := 0, writer := false }
    inFlightBusProcWaitGroup := 0
    isClosed := false
    topicListenerWorkerNum := []
    inFlightListenerProcWaitGroup := 0 }

/-- The runtime right after `NewBusChannel`: no channel, no worker. -/
def newRuntime (opts : List BusOption) (world : Log) : Runtime :=
  { b := NewBusChannel opts, chans := [], workers := [], world := world, execs := [] }

/-- The largest value the counter of a `sync.WaitGroup` (an int32) can hold. -/
def maxWaitGroup : Nat := 2147483647

/-- Counter update `WaitGroup.Done`: `none` is the negative-counter panic. -/
def wgDone (n : Nat) : Option Nat := if n = 0 then none else some (n - 1)

/-! ## bus_channel.go: execListener -/

/-- The body of `execListener` (L161-163): derive the timeout context and call the
listener; its returned error is dropped by the caller, a panic unwinds to the deferred
function. -/
def runListener (config : BusConfig) (pair : ctxEventPair) (listenerFunc : ListenerFunc)
    (world : Log) : Log × Outcome :=
  listenerFunc (WithTimeout pair.ctx (CoalesceOrEmpty config.ListenerTimeout _listenerExecTimeout))
    pair.event world

/-- The deferred function of `execListener` (L153-160): a panic is recovered, and on both
paths `inFlightListenerProcWaitGroup.Done()` runs; `none` is the panic of `Done` itself. -/
def execListenerDeferred (b : BusChannel) (o : Outcome) : Option BusChannel :=
  match o with
  | Outcome.panic _ =>
    match wgDone b.inFlightListenerProcWaitGroup with
    | some n => some { b with inFlightListenerProcWaitGroup := n }
    | none => none
  | Outcome.ret _ =>
    match wgDone b.inFlightListenerProcWaitGroup with
    | some n => some { b with inFlightListenerProcWaitGroup := n }
    | none => none

/-- The method `execListener`: the world after the listener ran and the bus after the
deferred function, `none` when `execListener` itself panics. -/
def execListener (b : BusChannel) (pair : ctxEventPair) (listenerFunc : ListenerFunc)
    (world : Log) : Log × Option BusChannel :=
  let r := runListener b.config pair listenerFunc world
  (r.1, execListenerDeferred b r.2)

/-! ## bus_channel.go: Subscribe, Publish, Shutdown, statement by statement -/

/-- One composition loop of `Subscribe` (L138-140, L141-143):
`listenerFunc = interceptor(listenerFunc)` for each interceptor in order. -/
def wrapAll (listenerFunc : ListenerFunc) (interceptors : List ListenerInterceptorFunc) :
    ListenerFunc :=
  interceptors.foldl (fun l interceptor => interceptor l) listenerFunc

/-- The listener handed to the worker (L138-143): the subscription interceptors are
applied first, then `config.ListenerInterceptors`. -/
def effectiveListener (config : BusConfig) (listenerFunc : ListenerFunc)
    (interceptors : List ListenerInterceptorFunc) : ListenerFunc :=
  wrapAll (wrapAll listenerFunc interceptors) config.ListenerInterceptors

/-- A call of one of the three methods of the bus. -/
inductive Call where
  | Publish (ctx : Context) (event : Event)
  | Subscribe (ctx : Context) (topic : String) (listenerFunc : ListenerFunc)
      (interceptors : List ListenerInterceptorFunc)
  | Shutdown (ctx : Context)

/-- Program points of the three methods (line numbers of bus_channel.go), with the
locals that are live there. -/
inductive PC where
  | entry                          -- L63, L84, L116: if b.isClosed.Load()
  | pubAdd                         -- L87
  | pubRLock                       -- L89
  | pubLookup                      -- L90-91
  | pubMissRUnlock                 -- L92
  | pubAddListeners (ch : Nat)     -- L97
  | pubRUnlock (ch : Nat)          -- L98
  | pubSend (ch : Nat)             -- L99
  | subAdd                         -- L119
  | subRLock                       -- L121
  | subLookup                      -- L122-123
  | subRUnlock (found : Option Nat) -- L124, L131
  | subLock (found : Option Nat)   -- L125, L132
  | subMake                        -- L126
  | subStoreChan (ch : Nat)        -- L127
  | subStoreNum (ch : Nat)         -- L128
  | subIncr (ch : Nat)             -- L133
  | subUnlock (ch : Nat)           -- L129, L134
  | subSpawn (ch : Nat)            -- L138-148
  | deferDone (r : Option Error)   -- L88, L120 (deferred), then return r
  | sdStore                        -- L66
  | sdSelect                       -- L67-71
  | sdWaitBus                      -- L72
  | sdWaitListeners                -- L73
  | sdLoop                         -- L74-75
  | sdDelete (topic : String)      -- L76
  deriving DecidableEq

/-- What one statement does: it cannot run now, it moves on, it returns, or it panics. -/
inductive StepOut where
  | blocked
  | goto (rt : Runtime) (pc : PC)
  | ret (rt : Runtime) (r : Option Error)
  | panic (rt : Runtime) (p : PanicVal)

/-- Replace the bus of a runtime. -/
def Runtime.withBus (rt : Runtime) (b : BusChannel) : Runtime := { rt with b := b }

/-- One statement of a call at program point `pc`.  The send of `Publish` on an open
channel needs a receiver and is `handOff`. -/
def stepCall (rt : Runtime) (c : Call) (pc : PC) : StepOut :=
  match c, pc with
  -- Publish
  | Call.Publish _ _, PC.entry =>
    if rt.b.isClosed then StepOut.ret rt (some Error.ErrBusClosed) else StepOut.goto rt PC.pubAdd
  | Call.Publish _ _, PC.pubAdd =>
    StepOut.goto (rt.withBus { rt.b with inFlightBusProcWaitGroup := rt.b.inFlightBusProcWaitGroup + 1 })
      PC.pubRLock
  | Call.Publish _ _, PC.pubRLock =>
    if rt.b.topicChannelsLock.writer then StepOut.blocked
    else StepOut.goto (rt.withBus { rt.b with topicChannelsLock :=
      { rt.b.topicChannelsLock with readers := rt.b.topicChannelsLock.readers + 1 } }) PC.pubLookup
  | Call.Publish _ event, PC.pubLookup =>
    match mapGet rt.b.topicChannels event.Topic with
    | none => StepOut.goto rt PC.pubMissRUnlock
    | some ch => StepOut.goto rt (PC.pubAddListeners ch)
  | Call.Publish _ _, PC.pubMissRUnlock =>
    StepOut.goto (rt.withBus { rt.b with topicChannelsLock :=
      { rt.b.topicChannelsLock with readers := rt.b.topicChannelsLock.readers - 1 } })
      (PC.deferDone (some Error.ErrNoSubscribers))
  | Call.Publish _ event, PC.pubAddListeners ch =>
    StepOut.goto (rt.withBus { rt.b with
      inFlightListenerProcWaitGroup := (rt.b.inFlightListenerProcWaitGroup +
        (mapGet rt.b.topicListenerWorkerNum event.Topic).getD 0) })
      (PC.pubRUnlock ch)
  | Call.Publish _ _, PC.pubRUnlock ch =>
    StepOut.goto (rt.withBus { rt.b with topicChannelsLock :=
      { rt.b.topicChannelsLock with readers := rt.b.topicChannelsLock.readers - 1 } }) (PC.pubSend ch)
  | Call.Publish _ _, PC.pubSend ch =>
    if rt.chans[ch]? = some true then
      -- send on a closed channel: the deferred Done runs, the panic goes on
      match wgDone rt.b.inFlightBusProcWaitGroup with
      | some n => StepOut.panic (rt.withBus { rt.b with inFlightBusProcWaitGroup := n })
          PanicVal.sendOnClosedChannel
      | none => StepOut.panic rt PanicVal.negativeWaitGroupCounter
    else StepOut.blocked
  -- Subscribe
  | Call.Subscribe _ _ _ _, PC.entry =>
    if rt.b.isClosed then StepOut.ret rt (some Error.ErrBusClosed) else StepOut.goto rt PC.subAdd
  | Call.Subscribe _ _ _ _, PC.subAdd =>
    StepOut.goto (rt.withBus { rt.b with inFlightBusProcWaitGroup := rt.b.inFlightBusProcWaitGroup + 1 })
      PC.subRLock
  | Call.Subscribe _ _ _ _, PC.subRLock =>
    if rt.b.topicChannelsLock.writer then StepOut.blocked
    else StepOut.goto (rt.withBus { rt.b with topicChannelsLock :=
      { rt.b.topicChannelsLock with readers := rt.b.topicChannelsLock.readers + 1 } }) PC.subLookup
  | Call.Subscribe _ topic _ _, PC.subLookup =>
    StepOut.goto rt (PC.subRUnlock (mapGet rt.b.topicChannels topic))
  | Call.Subscribe _ _ _ _, PC.subRUnlock found =>
    StepOut.goto (rt.withBus { rt.b with topicChannelsLock :=
      { rt.b.topicChannelsLock with readers := rt.b.topicChannelsLock.readers - 1 } }) (PC.subLock found)
  | Call.Subscribe _ _ _ _, PC.subLock found =>
    if rt.b.topicChannelsLock.writer ∨ rt.b.topicChannelsLock.readers ≠ 0 then StepOut.blocked
    else
      StepOut.goto (rt.withBus { rt.b with topicChannelsLock :=
        { rt.b.topicChannelsLock with writer := true } })
        (match found with
          | none => PC.subMake
          | some ch => PC.subIncr ch)
  | Call.Subscribe _ _ _ _, PC.subMake =>
    StepOut.goto { rt with chans := rt.chans ++ [false] } (PC.subStoreChan rt.chans.length)
  | Call.Subscribe _ topic _ _, PC.subStoreChan ch =>
    StepOut.goto (rt.withBus { rt.b with topicChannels := mapSet rt.b.topicChannels topic ch })
      (PC.subStoreNum ch)
  | Call.Subscribe _ topic _ _, PC.subStoreNum ch =>
    StepOut.goto (rt.withBus { rt.b with
      topicListenerWorkerNum := (mapSet rt.b.topicListenerWorkerNum topic 1) }) (PC.subUnlock ch)
  | Call.Subscribe _ topic _ _, PC.subIncr ch =>
    StepOut.goto (rt.withBus { rt.b with
      topicListenerWorkerNum := (mapSet rt.b.topicListenerWorkerNum topic
        ((mapGet rt.b.topicListenerWorkerNum topic).getD 0 + 1)) }) (PC.subUnlock ch)
  | Call.Subscribe _ _ _ _, PC.subUnlock ch =>
    StepOut.goto (rt.withBus { rt.b with topicChannelsLock :=
      { rt.b.topicChannelsLock with writer := false } }) (PC.subSpawn ch)
  | Call.Subscribe _ _ listenerFunc interceptors, PC.subSpawn ch =>
    StepOut.goto { rt with workers := (rt.workers ++
      [{ topicChannel := ch
         listenerFunc := effectiveListener rt.b.config listenerFunc interceptors
         state := WorkerState.idle }]) } (PC.deferDone none)
  -- Shutdown
  | Call.Shutdown _, PC.entry =>
    if rt.b.isClosed then StepOut.ret rt (some Error.ErrBusClosed) else StepOut.goto rt PC.sdStore
  | Call.Shutdown _, PC.sdStore =>
    StepOut.goto (rt.withBus { rt.b with isClosed := true }) PC.sdSelect
  | Call.Shutdown ctx, PC.sdSelect =>
    match ctx.err with
    | some e => StepOut.ret rt (some (Error.ctx e))
    | none => StepOut.goto rt PC.sdWaitBus
  | Call.Shutdown _, PC.sdWaitBus =>
    if rt.b.inFlightBusProcWaitGroup = 0 then StepOut.goto rt PC.sdWaitListeners else StepOut.blocked
  | Call.Shutdown _, PC.sdWaitListeners =>
    if rt.b.inFlightListenerProcWaitGroup = 0 then StepOut.goto rt PC.sdLoop else StepOut.blocked
  | Call.Shutdown _, PC.sdLoop =>
    match rt.b.topicChannels with
    | [] => StepOut.ret rt none
    | (topic, ch) :: _ =>
      if rt.chans[ch]? = some true then StepOut.panic rt PanicVal.closeOfClosedChannel
      else StepOut.goto { rt with chans := rt.chans.set ch true } (PC.sdDelete topic)
  | Call.Shutdown _, PC.sdDelete topic =>
    StepOut.goto (rt.withBus { rt.b with topicChannels := mapDelete rt.b.topicChannels topic }) PC.sdLoop
  -- the deferred Done of Publish and Subscribe, then the return
  | Call.Publish _ _, PC.deferDone r =>
    match wgDone rt.b.inFlightBusProcWaitGroup with
    | some n => StepOut.ret (rt.withBus { rt.b with inFlightBusProcWaitGroup := n }) r
    | none => StepOut.panic rt PanicVal.negativeWaitGroupCounter
  | Call.Subscribe _ _ _ _, PC.deferDone r =>
    match wgDone rt.b.inFlightBusProcWaitGroup with
    | some n => StepOut.ret (rt.withBus { rt.b with inFlightBusProcWaitGroup := n }) r
    | none => StepOut.panic rt PanicVal.negativeWaitGroupCounter
  | _, _ => StepOut.blocked

/-- The send of `Publish` (L99-102) on an open channel as a rendezvous with worker `w`,
which must be blocked at the receive of the same channel: the worker takes the pair. -/
def handOff (rt : Runtime) (c : Call) (pc : PC) (w : Nat) : Option Runtime :=
  match c, pc with
  | Call.Publish ctx event, PC.pubSend ch =>
    match rt.workers[w]? with
    | some wk =>
      if wk.topicChannel = ch ∧ wk.state = WorkerState.idle ∧ rt.chans[ch]? = some false then
        some { rt with workers := (rt.workers.set w
          { wk with state := WorkerState.running { ctx := ctx, event := event } }) }
      else none
    | none => none
  | _, _ => none

/-- What a worker step does. -/
inductive WorkerOut where
  | blocked
  | next (rt : Runtime)
  | panic (rt : Runtime) (p : PanicVal)

/-- One step of worker `w` (L145-147): an idle worker leaves its loop once the channel
is closed; a worker holding a pair runs the listener, then the deferred function. -/
def stepWorker (rt : Runtime) (w : Nat) : WorkerOut :=
  match rt.workers[w]? with
  | none => WorkerOut.blocked
  | some wk =>
    match wk.state with
    | WorkerState.idle =>
      if rt.chans[wk.topicChannel]? = some true then
        WorkerOut.next { rt with workers := rt.workers.set w { wk with state := WorkerState.exited } }
      else WorkerOut.blocked
    | WorkerState.running pair =>
      let r := runListener rt.b.config pair wk.listenerFunc rt.world
      WorkerOut.next { rt with
        world := r.1
        execs := rt.execs ++ [(w, pair)]
        workers := rt.workers.set w { wk with state := WorkerState.finishing r.2 } }
    | WorkerState.finishing o =>
      match execListenerDeferred rt.b o with
      | some b => WorkerOut.next { rt with
          b := b
          workers := rt.workers.set w { wk with state := WorkerState.idle } }
      | none => WorkerOut.panic rt PanicVal.negativeWaitGroupCounter
    | WorkerState.exited => WorkerOut.blocked

/-! ## Interleaved execution -/

/-- A caller goroutine: the calls it still has to make (the head is in progress at `pc`)
and the results of the calls it has finished. -/
structure Thread where
  prog : List Call
  pc : PC
  results : List (Option Error)

/-- The whole process; an unrecovered panic stops it. -/
structure Machine where
  rt : Runtime
  threads : List Thread
  crashed : Option PanicVal

/-- Scheduler choices: a statement of thread `i`, the hand-off of thread `i` to worker
`w`, a step of worker `w`. -/
inductive Label where
  | thr (i : Nat)
  | send (i : Nat) (w : Nat)
  | wrk (w : Nat)
  deriving DecidableEq

/-- One scheduler step; `none` when the chosen goroutine cannot move. -/
def step (m : Machine) (l : Label) : Option Machine :=
  match m.crashed with
  | some _ => none
  | none =>
    match l with
    | Label.thr i =>
      match m.threads[i]? with
      | none => none
      | some t =>
        match t.prog with
        | [] => none
        | c :: rest =>
          match stepCall m.rt c t.pc with
          | StepOut.blocked => none
          | StepOut.goto rt pc => some { m with rt := rt, threads := m.threads.set i { t with pc := pc } }
          | StepOut.ret rt r => some { m with
              rt := rt
              threads := m.threads.set i { prog := rest, pc := PC.entry, results := t.results ++ [r] } }
          | StepOut.panic rt p => some { m with rt := rt, crashed := some p }
    | Label.send i w =>
      match m.threads[i]? with
      | none => none
      | some t =>
        match t.prog with
        | [] => none
        | c :: _ =>
          match handOff m.rt c t.pc w with
          | none => none
          | some rt => some { m with
              rt := rt
              threads := m.threads.set i { t with pc := PC.deferDone none } }
    | Label.wrk w =>
      match stepWorker m.rt w with
      | WorkerOut.blocked => none
      | WorkerOut.next rt => some { m with rt := rt }
      | WorkerOut.panic rt p => some { m with rt := rt, crashed := some p }

/-- Run a schedule; `none` when one of its steps is not enabled. -/
def run (m : Machine) (sched : List Label) : Option Machine :=
  match sched with
  | [] => some m
  | l :: rest =>
    match step m l with
    | none => none
    | some m1 => run m1 rest

/-- No goroutine can move. -/
def Machine.terminal (m : Machine) : Prop := ∀ l : Label, step m l = none

/-! ## One call run alone -/

/-- How a call run alone ends. -/
inductive CallResult where
  | returned (r : Option Error)
  | panicked (p : PanicVal)
  | blocked
  deriving DecidableEq

/-- Index of the first worker blocked at the receive of channel `ch`. -/
def firstIdle (ws : List Worker) (ch : Nat) : Option Nat :=
  ws.findIdx? (fun wk => decide (wk.topicChannel = ch ∧ wk.state = WorkerState.idle))

/-- Run a call from `pc` with no other caller active; a send is handed to the first
worker waiting on the channel.  `none` when the fuel runs out. -/
def runCall (fuel : Nat) (rt : Runtime) (c : Call) (pc : PC) : Option (Runtime × CallResult) :=
  match fuel with
  | 0 => none
  | n + 1 =>
    match stepCall rt c pc with
    | StepOut.goto rt1 pc1 => runCall n rt1 c pc1
    | StepOut.ret rt1 r => some (rt1, CallResult.returned r)
    | StepOut.panic rt1 p => some (rt1, CallResult.panicked p)
    | StepOut.blocked =>
      match pc with
      | PC.pubSend ch =>
        match firstIdle rt.workers ch with
        | none => some (rt, CallResult.blocked)
        | some w =>
          match handOff rt c pc w with
          | none => some (rt, CallResult.blocked)
          | some rt1 => runCall n rt1 c (PC.deferDone none)
      | _ => some (rt, CallResult.blocked)

/-- The method `Publish` run alone. -/
def Publish (rt : Runtime) (ctx : Context) (event : Event) : Option (Runtime × CallResult) :=
  runCall 8 rt (Call.Publish ctx event) PC.entry

/-- The method `Subscribe` run alone. -/
def Subscribe (rt : Runtime) (ctx : Context) (topic : String) (listenerFunc : ListenerFunc)
    (interceptors : List ListenerInterceptorFunc) : Option (Runtime × CallResult) :=
  runCall 12 rt (Call.Subscribe ctx topic listenerFunc interceptors) PC.entry

/-- The method `Shutdown` run alone; the loop takes two steps for each topic. -/
def Shutdown (rt : Runtime) (ctx : Context) : Option (Runtime × CallResult) :=
  runCall (2 * rt.b.topicChannels.length + 6) rt (Call.Shutdown ctx) PC.entry

/-! ## Auxiliary definitions for the statements -/

/-- The runtime a statement leaves behind, when it runs. -/
def StepOut.after (o : StepOut) : Option Runtime :=
  match o with
  | StepOut.blocked => none
  | StepOut.goto rt _ => some rt
  | StepOut.ret rt _ => some rt
  | StepOut.panic rt _ => some rt

/-- The runtime a worker step leaves behind, when the worker moves. -/
def WorkerOut.after (o : WorkerOut) : Option Runtime :=
  match o with
  | WorkerOut.blocked => none
  | WorkerOut.next rt => some rt
  | WorkerOut.panic rt _ => some rt

/-- The code of an interceptor around its call of `next`: what it does before, and what it
does after `next` has returned the error `e`. -/
abbrev Advice := (Context → Event → Log → Log) × (Context → Event → Option Error → Log → Log)

/-- An interceptor that runs its code before, calls `next` once with the same context and
event, and runs its code after once `next` has returned (not when it panicked); it returns
what `next` returned. -/
def around (p : Advice) : ListenerInterceptorFunc :=
  fun next ctx ev w =>
    match next ctx ev (p.1 ctx ev w) with
    | (w2, Outcome.ret e) => (p.2 ctx ev e w2, Outcome.ret e)
    | (w2, Outcome.panic v) => (w2, Outcome.panic v)

/-- Run the code before `next` of a list of interceptors, in list order. -/
def runPre (ps : List Advice) (ctx : Context) (ev : Event) (w : Log) : Log :=
  ps.foldl (fun acc p => p.1 ctx ev acc) w

/-- Run the code after `next` of a list of interceptors, in list order. -/
def runPost (ps : List Advice) (ctx : Context) (ev : Event) (e : Option Error) (w : Log) : Log :=
  ps.foldl (fun acc p => p.2 ctx ev e acc) w

/-- A run of `r` framed by code before and code after: first `pre`, then `r`, then, when
`r` returned, `post`. -/
def chained (pre : Log → Log) (post : Option Error → Log → Log) (r : Log → Log × Outcome)
    (w : Log) : Log × Outcome :=
  match r (pre w) with
  | (w2, Outcome.ret e) => (post e w2, Outcome.ret e)
  | (w2, Outcome.panic v) => (w2, Outcome.panic v)

/-- The global interceptor of `TestNewBusChannel` (bus_channel_test.go L22-34): it logs,
calls `next`, and logs the error `next` returned. -/
def testInterceptor : Advice :=
  (fun _ _ w => w ++ ["executing listener func"],
   fun _ _ e w =>
    match e with
    | some _ => w ++ ["listener error"]
    | none => w)

/-- The subscription interceptor of `TestNewBusChannel` (L41-51): it logs, logs the context
value of "some-key" if there is one, and calls `next`. -/
def testInterceptorChild : Advice :=
  (fun ctx _ w =>
    match mapGet ctx.values "some-key" with
    | some _ => w ++ ["executing listener func, interceptor child", "interceptor child got ctx value"]
    | none => w ++ ["executing listener func, interceptor child"],
   fun _ _ _ w => w)

/-- The listener of `TestNewBusChannel` (L52-55): it logs and returns an error. -/
def testListener : ListenerFunc :=
  fun _ _ w => (w ++ ["received message"], Outcome.ret (some (Error.other "test error")))

/-- A listener that records its run and returns nil. -/
def traceF : ListenerFunc := fun _ _ w => (w ++ ["f"], Outcome.ret none)

/-- An interceptor that records the name G, then calls `next`. -/
def traceG : ListenerInterceptorFunc := fun next ctx ev w => next ctx ev (w ++ ["G"])

/-- An interceptor that records the name L, then calls `next`. -/
def traceL : ListenerInterceptorFunc := fun next ctx ev w => next ctx ev (w ++ ["L"])

/-- The event `NewEvent(WithTopic("t"), WithMessage([1, 2]))`. -/
def evT : Event := NewEvent [WithTopic "t", WithMessage [1, 2]]

/-- One `Subscribe` request of a sequence. -/
structure SubReq where
  ctx : Context
  topic : String
  listenerFunc : ListenerFunc
  interceptors : List ListenerInterceptorFunc

/-- Calls of `Subscribe` made one after the other, each run alone. -/
def subscribeAll (rt : Runtime) (reqs : List SubReq) : Option (Runtime × List CallResult) :=
  match reqs with
  | [] => some (rt, [])
  | r :: rest =>
    match Subscribe rt r.ctx r.topic r.listenerFunc r.interceptors with
    | none => none
    | some (rt1, res) =>
      match subscribeAll rt1 rest with
      | none => none
      | some (rt2, rs) => some (rt2, res :: rs)

/-- The number of worker goroutines blocked at the receive of channel `ch`. -/
def workersOn (rt : Runtime) (ch : Nat) : Nat :=
  rt.workers.countP (fun wk => decide (wk.topicChannel = ch) && decide (wk.state = WorkerState.idle))

/-- The state of a bus on which only `Subscribe` calls ran, one at a time, for the topics
`seen` (in call order). -/
structure SeqSubscribed (rt : Runtime) (seen : List String) : Prop where
  isOpen : rt.b.isClosed = false
  noWriter : rt.b.topicChannelsLock.writer = false
  noReader : rt.b.topicChannelsLock.readers = 0
  routed : ∀ t, (mapGet rt.b.topicChannels t).isSome ↔ t ∈ seen
  counted : ∀ t, (mapGet rt.b.topicListenerWorkerNum t).getD 0 = seen.count t
  served : ∀ t ch, mapGet rt.b.topicChannels t = some ch →
    rt.chans[ch]? = some false ∧ workersOn rt ch = seen.count t
  inj : ∀ t1 t2 ch, mapGet rt.b.topicChannels t1 = some ch →
    mapGet rt.b.topicChannels t2 = some ch → t1 = t2
  bound : ∀ wk ∈ rt.workers, wk.topicChannel < rt.chans.length

/-- The runtime a `Subscribe` run alone on an open, unlocked bus leaves behind (shown equal
to the result of `Subscribe` in `Subscribe_eq`). -/
def afterSubscribe (rt : Runtime) (topic : String) (f : ListenerFunc)
    (ics : List ListenerInterceptorFunc) : Runtime :=
  match mapGet rt.b.topicChannels topic with
  | none =>
    { rt with
      b := { rt.b with
        topicChannels := (mapSet rt.b.topicChannels topic rt.chans.length)
        topicListenerWorkerNum := (mapSet rt.b.topicListenerWorkerNum topic 1) }
      chans := (rt.chans ++ [false])
      workers := (rt.workers ++ [{ topicChannel := rt.chans.length
                                   listenerFunc := effectiveListener rt.b.config f ics
                                   state := WorkerState.idle }]) }
  | some ch =>
    { rt with
      b := { rt.b with
        topicListenerWorkerNum := (mapSet rt.b.topicListenerWorkerNum topic
          ((mapGet rt.b.topicListenerWorkerNum topic).getD 0 + 1)) }
      workers := (rt.workers ++ [{ topicChannel := ch
                                   listenerFunc := effectiveListener rt.b.config f ics
                                   state := WorkerState.idle }]) }

/-- The call `Publish(p.ctx, p.event)`. -/
def pubCall (p : ctxEventPair) : Call := Call.Publish p.ctx p.event

/-- A bus with exactly one subscriber on topic `T`: the bus is open, nobody holds the write
lock, `T` is routed to the open channel `ch` with one recorded worker, worker `w` is the only
worker on `ch` and waits at its receive, every other worker is blocked, and the two in-flight
counters leave room for one more call and two more pairs below `maxWaitGroup`. -/
structure OneSubscriber (rt : Runtime) (T : String) (ch w : Nat) (wk0 : Worker) : Prop where
  isOpen : rt.b.isClosed = false
  noWriter : rt.b.topicChannelsLock.writer = false
  route : mapGet rt.b.topicChannels T = some ch
  num : (mapGet rt.b.topicListenerWorkerNum T).getD 0 = 1
  chOpen : rt.chans[ch]? = some false
  worker : rt.workers[w]? = some wk0
  wkCh : wk0.topicChannel = ch
  wkIdle : wk0.state = WorkerState.idle
  others : ∀ w1 wk1, w1 ≠ w → rt.workers[w1]? = some wk1 →
    wk1.topicChannel ≠ ch ∧
    ((wk1.state = WorkerState.idle ∧ rt.chans[wk1.topicChannel]? ≠ some true) ∨
      wk1.state = WorkerState.exited)
  busRoom : rt.b.inFlightBusProcWaitGroup + 1 ≤ maxWaitGroup
  latchRoom : rt.b.inFlightListenerProcWaitGroup + 2 ≤ maxWaitGroup

/-- The machine in which one caller publishes `pairs` one after the other on the bus `rt0`:
`k` calls have returned, the current one is at `pc`, worker `w` is in state `st` and has run
the listener `j` times; `bw`, `lw`, `r` are the two counters and the read holders. -/
def pubState (rt0 : Runtime) (pairs : List ctxEventPair) (w : Nat) (wk0 : Worker)
    (k : Nat) (pc : PC) (st : WorkerState) (j bw lw r : Nat) (world : Log) : Machine :=
  { rt :=
      { b := { rt0.b with
          topicChannelsLock := { readers := r, writer := false }
          inFlightBusProcWaitGroup := bw
          inFlightListenerProcWaitGroup := lw }
        chans := rt0.chans
        workers := rt0.workers.set w { wk0 with state := st }
        world := world
        execs := rt0.execs ++ (pairs.take j).map (fun p => (w, p)) }
    threads := [{ prog := (pairs.drop k).map pubCall, pc := pc, results := List.replicate k none }]
    crashed := none }

/-- Position of a program point of `Publish` in the order of execution. -/
def pcRank (pc : PC) : Nat :=
  match pc with
  | PC.pubAdd => 1
  | PC.pubRLock => 2
  | PC.pubLookup => 3
  | PC.pubAddListeners _ => 4
  | PC.pubRUnlock _ => 5
  | PC.pubSend _ => 6
  | PC.deferDone _ => 7
  | _ => 0

/-- Whether the current call has handed its pair to the worker (1) or not (0). -/
def sentOf (pc : PC) : Nat :=
  match pc with
  | PC.deferDone _ => 1
  | _ => 0

/-- Whether a program point holds the read lock. -/
def readOf (pc : PC) : Nat :=
  match pc with
  | PC.pubLookup => 1
  | PC.pubMissRUnlock => 1
  | PC.pubAddListeners _ => 1
  | PC.pubRUnlock _ => 1
  | PC.subLookup => 1
  | PC.subRUnlock _ => 1
  | _ => 0

/-- Whether a program point holds the write lock. -/
def writeOf (pc : PC) : Nat :=
  match pc with
  | PC.subMake => 1
  | PC.subStoreChan _ => 1
  | PC.subStoreNum _ => 1
  | PC.subIncr _ => 1
  | PC.subUnlock _ => 1
  | _ => 0

/-- Whether the current call holds an unmatched `Add` on the dispatch counter. -/
def latchOf (pc : PC) : Nat :=
  match pc with
  | PC.pubRUnlock _ => 1
  | PC.pubSend _ => 1
  | _ => 0

/-- Whether the current call holds its `Add(1)` on the registration counter. -/
def regOf (pc : PC) : Nat :=
  match pc with
  | PC.entry => 0
  | PC.pubAdd => 0
  | _ => 1

/-- Whether the worker holds a pair whose `Done` is still to come. -/
def busyOf (st : WorkerState) : Nat :=
  match st with
  | WorkerState.running _ => 1
  | WorkerState.finishing _ => 1
  | _ => 0

/-- Whether the worker holds a pair it has not yet run the listener on. -/
def runOf (st : WorkerState) : Nat :=
  match st with
  | WorkerState.running _ => 1
  | _ => 0

/-- Whether the worker is between the listener call and the deferred function. -/
def finOf (st : WorkerState) : Nat :=
  match st with
  | WorkerState.finishing _ => 1
  | _ => 0

/-- The consistency conditions between the caller and the worker of `pubState`. -/
structure Good (pairs : List ctxEventPair) (ch : Nat) (k : Nat) (pc : PC) (st : WorkerState)
    (j bw lw : Nat) : Prop where
  kle : k ≤ pairs.length
  pcOk : pc = PC.entry ∨ pc = PC.pubAdd ∨ pc = PC.pubRLock ∨ pc = PC.pubLookup ∨
    pc = PC.pubAddListeners ch ∨ pc = PC.pubRUnlock ch ∨ pc = PC.pubSend ch ∨
    pc = PC.deferDone none
  atEnd : k = pairs.length → pc = PC.entry
  reg : regOf pc ≤ bw
  latch : latchOf pc + busyOf st ≤ lw
  notExited : st ≠ WorkerState.exited
  held : ∀ p, st = WorkerState.running p → pairs[j]? = some p
  count : j + runOf st = k + sentOf pc

/-- The world after the listener of worker `wk0` has been called on the first `j` pairs, in
order: the call for a pair passes the context of the pair with the listener timeout and the
event of the pair. -/
def worldAfter (rt0 : Runtime) (pairs : List ctxEventPair) (wk0 : Worker) (j : Nat) : Log :=
  (pairs.take j).foldl
    (fun world p =>
      (wk0.listenerFunc
        (WithTimeout p.ctx (CoalesceOrEmpty rt0.b.config.ListenerTimeout _listenerExecTimeout))
        p.event world).1)
    rt0.world

/-- The invariant of the one-publisher machine after `L` steps. -/
def PubInv (rt0 : Runtime) (pairs : List ctxEventPair) (ch w : Nat) (wk0 : Worker) (m : Machine)
    (L : Nat) : Prop :=
  ∃ k pc st j bw lw r world,
    m = pubState rt0 pairs w wk0 k pc st j bw lw r world ∧ Good pairs ch k pc st j bw lw ∧
    L + finOf st = 8 * k + pcRank pc + 2 * j ∧ world = worldAfter rt0 pairs wk0 j ∧
    bw = rt0.b.inFlightBusProcWaitGroup + regOf pc ∧
    lw = rt0.b.inFlightListenerProcWaitGroup + latchOf pc + busyOf st ∧
    r = rt0.b.topicChannelsLock.readers + readOf pc

/-- The pairs a caller publishes: for each context and payload the event
`NewEvent(WithTopic(T), WithMessage(payload))`. -/
def pairsOf (T : String) (msgs : List (Context × List (Fin 256))) : List ctxEventPair :=
  msgs.map (fun cm => { ctx := cm.1, event := NewEvent [WithTopic T, WithMessage cm.2] })

/-- The machine with one caller that publishes `pairs` one after the other on `rt0`. -/
def onePublisher (rt0 : Runtime) (pairs : List ctxEventPair) : Machine :=
  { rt := rt0
    threads := [{ prog := pairs.map pubCall, pc := PC.entry, results := [] }]
    crashed := none }

/-- One caller on a fresh bus: two subscriptions to "t", one publish on "t", then `Shutdown`
with a live context. -/
def twoSubscribers : Machine :=
  { rt := newRuntime [] []
    threads := [{ prog := [Call.Subscribe Background "t" traceF [],
                           Call.Subscribe Background "t" traceF [],
                           Call.Publish Background evT, Call.Shutdown Background]
                  pc := PC.entry, results := [] }]
    crashed := none }

/-- The schedule of `twoSubscribers`: both subscriptions (12 and 10 statements), the publish
(6 statements, the hand-off to worker 0, the deferred Done), the listener run to its end,
then `Shutdown` up to its second wait. -/
def twoSubscribersSched : List Label :=
  List.replicate 28 (Label.thr 0) ++ [Label.send 0 0, Label.thr 0, Label.wrk 0, Label.wrk 0] ++
    List.replicate 4 (Label.thr 0)

/-- A caller that subscribes to "t" and then publishes on "t", and a second caller that
calls `Shutdown` with a live context. -/
def racing : Machine :=
  { rt := newRuntime [] []
    threads := [{ prog := [Call.Subscribe Background "t" traceF [], Call.Publish Background evT]
                  pc := PC.entry, results := [] },
                { prog := [Call.Shutdown Background], pc := PC.entry, results := [] }]
    crashed := none }

/-- The schedule of `racing` up to the moment `Shutdown` has passed both waits while
`Publish` has only passed its closed check. -/
def racingAdmitted : List Label :=
  List.replicate 13 (Label.thr 0) ++ List.replicate 5 (Label.thr 1)

/-- The rest of the race: `Publish` reaches its send, `Shutdown` closes and removes the
channel, `Publish` sends. -/
def racingRest : List Label :=
  List.replicate 5 (Label.thr 0) ++ List.replicate 2 (Label.thr 1) ++ [Label.thr 0]

/-- A caller that subscribes to "t" racing with a caller of `Shutdown`. -/
def racingSubscribe : Machine :=
  { rt := newRuntime [] []
    threads := [{ prog := [Call.Subscribe Background "t" traceF []], pc := PC.entry, results := [] },
                { prog := [Call.Shutdown Background], pc := PC.entry, results := [] }]
    crashed := none }

/-- The schedule of `racingSubscribe`: `Subscribe` passes its closed check, `Shutdown` runs
to its return, `Subscribe` goes on to its return. -/
def racingSubscribeSched : List Label :=
  [Label.thr 0] ++ List.replicate 6 (Label.thr 1) ++ List.replicate 11 (Label.thr 0)

/-- What is observed of a machine: closed flag, both counters, routing table, channel heap,
worker states, number of listener runs, results and program points of the callers, the crash. -/
structure Obs where
  isClosed : Bool
  inFlightBusProc : Nat
  inFlightListenerProc : Nat
  topicChannels : List (String × Nat)
  chans : List Bool
  workers : List WorkerState
  runs : Nat
  callers : List (List (Option Error) × PC)
  crashed : Option PanicVal
  deriving DecidableEq

/-- The observation of a machine. -/
def observe (m : Machine) : Obs :=
  { isClosed := m.rt.b.isClosed
    inFlightBusProc := m.rt.b.inFlightBusProcWaitGroup
    inFlightListenerProc := m.rt.b.inFlightListenerProcWaitGroup
    topicChannels := m.rt.b.topicChannels
    chans := m.rt.chans
    workers := m.rt.workers.map (fun wk => wk.state)
    runs := m.rt.execs.length
    callers := m.threads.map (fun t => (t.results, t.pc))
    crashed := m.crashed }

/-- A closed bus: a fresh bus whose closed flag is set. -/
def closedRuntime : Runtime :=
  { b := { NewBusChannel [] with isClosed := true }, chans := [], workers := [], world := [], execs := [] }

/-- A bus with one subscription to "t": the listener `traceF` without interceptors. -/
def oneSubscriberRuntime : Runtime := afterSubscribe (newRuntime [] []) "t" traceF []

/-- A listener that records the topic and the payload (as text) of the event it is called
with, and returns nil. -/
def recordingListener : ListenerFunc :=
  fun _ ev w =>
    (w ++ [ev.Topic, String.mk (ev.Message.map (fun b => Char.ofNat b.val))], Outcome.ret none)

/-- A bus with one subscription to "t": the listener `recordingListener`, no interceptors. -/
def recordingRuntime : Runtime := afterSubscribe (newRuntime [] []) "t" recordingListener []

/-- The worker of `recordingRuntime`. -/
def recordingWorker : Worker :=
  { topicChannel := 0
    listenerFunc := effectiveListener (NewBusChannel []).config recordingListener []
    state := WorkerState.idle }

/-- A context that was cancelled. -/
def cancelledContext : Context := { err := some CtxErr.Canceled, timeout := none, values := [] }

/-- A listener that panics. -/
def panicListener : ListenerFunc := fun _ _ w => (w ++ ["about to panic"], Outcome.panic "boom")

/-! ## The invariant of every reachable state -/

/-- The recorded worker count of a topic, `b.topicListenerWorkerNum[topic]`. -/
def workerNum (rt : Runtime) (topic : String) : Nat :=
  (mapGet rt.b.topicListenerWorkerNum topic).getD 0

/-- Where a statement that neither blocks nor panics leaves the caller: the runtime and the
next program point (the entry of the next call after a return). -/
def StepOut.move (o : StepOut) : Option (Runtime × PC) :=
  match o with
  | StepOut.goto rt pc => some (rt, pc)
  | StepOut.ret rt _ => some (rt, PC.entry)
  | _ => none

/-- The process at start: a fresh bus and callers that have not started their calls. -/
def boot (opts : List BusOption) (world : Log) (progs : List (List Call)) : Machine :=
  { rt := newRuntime opts world
    threads := progs.map (fun prog => { prog := prog, pc := PC.entry, results := [] })
    crashed := none }

/-- The states of the process that some schedule reaches from a start. -/
def Reachable (m : Machine) : Prop :=
  ∃ opts world progs sched, run (boot opts world progs) sched = some m

/-- The number of callers that hold an unmatched `Add` on the dispatch counter. -/
def sumLatch (m : Machine) : Nat := (m.threads.map (fun t => latchOf t.pc)).sum

/-- The number of callers that hold the read lock. -/
def sumRead (m : Machine) : Nat := (m.threads.map (fun t => readOf t.pc)).sum

/-- The number of callers that hold the write lock. -/
def sumWrite (m : Machine) : Nat := (m.threads.map (fun t => writeOf t.pc)).sum

/-- The number of workers that hold a pair whose `Done` is still to come. -/
def sumBusy (rt : Runtime) : Nat := (rt.workers.map (fun wk => busyOf wk.state)).sum

/-- The invariant of every reachable state: each pair in flight is counted by the dispatch
counter, the lock is held as the program points say, and a routed topic has a positive worker
count unless its first subscriber is between the two map writes. -/
structure Sound (m : Machine) : Prop where
  latch : sumLatch m + sumBusy m.rt ≤ m.rt.b.inFlightListenerProcWaitGroup
  read : sumRead m ≤ m.rt.b.topicChannelsLock.readers
  write : sumWrite m = if m.rt.b.topicChannelsLock.writer = true then 1 else 0
  excl : m.rt.b.topicChannelsLock.writer = true → m.rt.b.topicChannelsLock.readers = 0
  routed : ∀ T, mapGet m.rt.b.topicChannels T ≠ none →
    1 ≤ workerNum m.rt T ∨
      ∃ (i : Nat) (t : Thread) (ctx : Context) (f : ListenerFunc)
          (ics : List ListenerInterceptorFunc) (rest : List Call) (ch : Nat),
        m.threads[i]? = some t ∧
        t.prog = Call.Subscribe ctx T f ics :: rest ∧ t.pc = PC.subStoreNum ch
  counted : ∀ (i : Nat) (t : Thread) (ctx : Context) (ev : Event) (rest : List Call) (ch : Nat),
    m.threads[i]? = some t →
    t.prog = Call.Publish ctx ev :: rest → t.pc = PC.pubAddListeners ch →
    1 ≤ workerNum m.rt ev.Topic

/-- A caller that subscribes a panicking listener to "t" and publishes on "t". -/
def delivering : Machine :=
  boot [] [] [[Call.Subscribe Background "t" panicListener [], Call.Publish Background evT]]

/-- The schedule of `delivering` up to the hand-off of the pair to the worker. -/
def deliveringSched : List Label := List.replicate 18 (Label.thr 0) ++ [Label.send 0 0]

/-! ## Theorems -/

/-! ### Basic facts -/

theorem wgDone_succ (n : Nat) : wgDone (n + 1) = some n := by
  simp [wgDone]

theorem mapGet_mapSet {α : Type} (m : List (String × α)) (k k1 : String) (v : α) :
    mapGet (mapSet m k v) k1 = if k = k1 then some v else mapGet m k1 := by
  induction m with
  | nil => simp [mapSet, mapGet]
  | cons p rest ih =>
    obtain ⟨k2, v2⟩ := p
    by_cases h : k2 = k
    · subst h
      by_cases h1 : k2 = k1 <;> simp [mapSet, mapGet, h1]
    · by_cases h1 : k = k1
      · subst h1
        simp [mapSet, mapGet, h, ih]
      · by_cases h2 : k2 = k1
        · subst h2
          simp [mapSet, mapGet, h, h1]
        · simp [mapSet, mapGet, h, h1, h2, ih]

theorem set_self {α : Type} (l : List α) (i : Nat) (a : α) (h : l[i]? = some a) :
    l.set i a = l := by
  induction l generalizing i with
  | nil => rfl
  | cons x xs ih =>
    cases i with
    | zero =>
      simp only [List.getElem?_cons_zero, Option.some.injEq] at h
      simp [h]
    | succ i =>
      simp only [List.getElem?_cons_succ] at h
      simp [ih i h]

/-! ### The closed flag -/

theorem stepCall_entry_closed (rt : Runtime) (c : Call) (h : rt.b.isClosed = true) :
    stepCall rt c PC.entry = StepOut.ret rt (some Error.ErrBusClosed) := by
  cases c <;> simp [stepCall, h]

theorem stepCall_closed_mono (rt rt1 : Runtime) (c : Call) (pc : PC) (h : rt.b.isClosed = true)
    (h1 : (stepCall rt c pc).after = some rt1) : rt1.b.isClosed = true := by
  cases c <;> cases pc <;> simp only [stepCall, Runtime.withBus] at h1 <;>
    (repeat' split at h1) <;> simp only [StepOut.after, Option.some.injEq, reduceCtorEq] at h1 <;>
    (try subst h1) <;> simp_all

theorem handOff_bus (rt rt1 : Runtime) (c : Call) (pc : PC) (w : Nat)
    (h : handOff rt c pc w = some rt1) : rt1.b = rt.b := by
  cases c <;> cases pc <;> simp only [handOff, reduceCtorEq] at h
  split at h
  · split at h
    · simp only [Option.some.injEq] at h
      subst h
      rfl
    · cases h
  · cases h

theorem execListenerDeferred_closed (b b1 : BusChannel) (o : Outcome)
    (h : execListenerDeferred b o = some b1) : b1.isClosed = b.isClosed := by
  cases o <;>
    (simp only [execListenerDeferred] at h
     split at h <;> simp only [Option.some.injEq, reduceCtorEq] at h
     subst h
     rfl)

theorem stepWorker_closed_mono (rt rt1 : Runtime) (w : Nat) (h : rt.b.isClosed = true)
    (h1 : (stepWorker rt w).after = some rt1) : rt1.b.isClosed = true := by
  simp only [stepWorker] at h1
  cases hw : rt.workers[w]? with
  | none => simp [hw, WorkerOut.after] at h1
  | some wk =>
    simp only [hw] at h1
    cases hst : wk.state with
    | idle =>
      simp only [hst] at h1
      split at h1 <;> simp only [WorkerOut.after, Option.some.injEq, reduceCtorEq] at h1
      subst h1
      exact h
    | running pair =>
      simp only [hst, WorkerOut.after, Option.some.injEq] at h1
      subst h1
      exact h
    | finishing o =>
      simp only [hst] at h1
      cases hd : execListenerDeferred rt.b o with
      | none =>
        simp only [hd, WorkerOut.after, Option.some.injEq] at h1
        subst h1
        exact h
      | some b1 =>
        simp only [hd, WorkerOut.after, Option.some.injEq] at h1
        subst h1
        simp only [execListenerDeferred_closed _ _ _ hd, h]
    | exited => simp [hst, WorkerOut.after] at h1

theorem step_closed_mono (m m1 : Machine) (l : Label) (h : m.rt.b.isClosed = true)
    (hs : step m l = some m1) : m1.rt.b.isClosed = true := by
  unfold step at hs
  split at hs
  · cases hs
  · cases l with
    | thr i =>
      simp only at hs
      split at hs
      · cases hs
      · rename_i t _
        split at hs
        · cases hs
        · rename_i c rest _
          cases hc : stepCall m.rt c t.pc with
          | blocked => simp [hc] at hs
          | goto rt pc =>
            simp only [hc, Option.some.injEq] at hs
            subst hs
            exact stepCall_closed_mono m.rt rt c t.pc h (by simp [hc, StepOut.after])
          | ret rt r =>
            simp only [hc, Option.some.injEq] at hs
            subst hs
            exact stepCall_closed_mono m.rt rt c t.pc h (by simp [hc, StepOut.after])
          | panic rt p =>
            simp only [hc, Option.some.injEq] at hs
            subst hs
            exact stepCall_closed_mono m.rt rt c t.pc h (by simp [hc, StepOut.after])
    | send i w =>
      simp only at hs
      split at hs
      · cases hs
      · rename_i t _
        split at hs
        · cases hs
        · rename_i c rest _
          cases hc : handOff m.rt c t.pc w with
          | none => simp [hc] at hs
          | some rt =>
            simp only [hc, Option.some.injEq] at hs
            subst hs
            simp only [handOff_bus _ _ _ _ _ hc, h]
    | wrk w =>
      simp only at hs
      cases hc : stepWorker m.rt w with
      | blocked => simp [hc] at hs
      | next rt =>
        simp only [hc, Option.some.injEq] at hs
        subst hs
        exact stepWorker_closed_mono m.rt rt w h (by simp [hc, WorkerOut.after])
      | panic rt p =>
        simp only [hc, Option.some.injEq] at hs
        subst hs
        exact stepWorker_closed_mono m.rt rt w h (by simp [hc, WorkerOut.after])

theorem runCall_closed (fuel : Nat) (rt : Runtime) (c : Call) (pc : PC)
    (out : Runtime × CallResult) (h : rt.b.isClosed = true)
    (hr : runCall fuel rt c pc = some out) : out.1.b.isClosed = true := by
  induction fuel generalizing rt pc with
  | zero => simp [runCall] at hr
  | succ n ih =>
    simp only [runCall] at hr
    cases hc : stepCall rt c pc with
    | goto rt1 pc1 =>
      simp only [hc] at hr
      exact ih rt1 pc1 (stepCall_closed_mono rt rt1 c pc h (by simp [hc, StepOut.after])) hr
    | ret rt1 r =>
      simp only [hc, Option.some.injEq] at hr
      subst hr
      exact stepCall_closed_mono rt rt1 c pc h (by simp [hc, StepOut.after])
    | panic rt1 p =>
      simp only [hc, Option.some.injEq] at hr
      subst hr
      exact stepCall_closed_mono rt rt1 c pc h (by simp [hc, StepOut.after])
    | blocked =>
      simp only [hc] at hr
      split at hr
      · rename_i ch
        split at hr
        · simp only [Option.some.injEq] at hr
          subst hr
          exact h
        · rename_i w _
          split at hr
          · simp only [Option.some.injEq] at hr
            subst hr
            exact h
          · rename_i rt1 hh
            exact ih rt1 _ (by rw [handOff_bus _ _ _ _ _ hh]; exact h) hr
      · simp only [Option.some.injEq] at hr
        subst hr
        exact h

theorem runCall_Shutdown_open (n : Nat) (rt : Runtime) (ctx : Context)
    (hopen : rt.b.isClosed = false) :
    runCall (n + 2) rt (Call.Shutdown ctx) PC.entry =
      runCall n { rt with b := { rt.b with isClosed := true } } (Call.Shutdown ctx) PC.sdSelect := by
  simp [runCall, stepCall, hopen, Runtime.withBus]

theorem Shutdown_sets_closed (rt : Runtime) (ctx : Context) (out : Runtime × CallResult)
    (hr : Shutdown rt ctx = some out) : out.1.b.isClosed = true := by
  by_cases h : rt.b.isClosed = true
  · exact runCall_closed _ rt _ _ out h hr
  · have hopen : rt.b.isClosed = false := by simpa using h
    obtain ⟨n, hn⟩ : ∃ n, 2 * rt.b.topicChannels.length + 6 = n + 2 := ⟨_, rfl⟩
    rw [Shutdown, hn, runCall_Shutdown_open n rt ctx hopen] at hr
    exact runCall_closed _ _ _ _ out rfl hr

/-- C1: on a bus whose closed flag is set, the first statement of every call returns
ErrBusClosed and leaves the whole runtime unchanged (routing table, worker counts, both
in-flight counters, workers), so `Publish`, `Subscribe` and `Shutdown` each return ErrBusClosed
with the runtime as it was; no step of any goroutine resets the flag, and every `Shutdown`
that ends, however it ends, leaves the flag set. -/
theorem closed_bus_rejects_every_call (rt : Runtime) (hclosed : rt.b.isClosed = true) :
    (∀ c : Call, stepCall rt c PC.entry = StepOut.ret rt (some Error.ErrBusClosed)) ∧
    (∀ ctx event,
      Publish rt ctx event = some (rt, CallResult.returned (some Error.ErrBusClosed))) ∧
    (∀ ctx topic listenerFunc interceptors,
      Subscribe rt ctx topic listenerFunc interceptors =
        some (rt, CallResult.returned (some Error.ErrBusClosed))) ∧
    (∀ ctx, Shutdown rt ctx = some (rt, CallResult.returned (some Error.ErrBusClosed))) ∧
    (∀ (m m1 : Machine) (l : Label), m.rt = rt → step m l = some m1 →
      m1.rt.b.isClosed = true) ∧
    (∀ (rt0 : Runtime) (ctx : Context) (out : Runtime × CallResult),
      Shutdown rt0 ctx = some out → out.1.b.isClosed = true) := by
  refine ⟨fun c => stepCall_entry_closed rt c hclosed, ?_, ?_, ?_, ?_, Shutdown_sets_closed⟩
  · intro ctx event
    simp [Publish, runCall, stepCall_entry_closed rt _ hclosed]
  · intro ctx topic f ics
    simp [Subscribe, runCall, stepCall_entry_closed rt _ hclosed]
  · intro ctx
    simp [Shutdown, runCall, stepCall_entry_closed rt _ hclosed]
  · intro m m1 l hm hs
    subst hm
    exact step_closed_mono m m1 l hclosed hs

theorem closed_bus_rejects_every_call_witness :
    closedRuntime.b.isClosed = true ∧
    Publish closedRuntime Background evT =
      some (closedRuntime, CallResult.returned (some Error.ErrBusClosed)) ∧
    Subscribe closedRuntime Background "t" traceF [traceL] =
      some (closedRuntime, CallResult.returned (some Error.ErrBusClosed)) ∧
    Shutdown closedRuntime Background =
      some (closedRuntime, CallResult.returned (some Error.ErrBusClosed)) :=
  ⟨rfl, (closed_bus_rejects_every_call closedRuntime rfl).2.1 Background evT,
    (closed_bus_rejects_every_call closedRuntime rfl).2.2.1 Background "t" traceF [traceL],
    (closed_bus_rejects_every_call closedRuntime rfl).2.2.2.1 Background⟩

/-- C2: on an open bus whose write lock is free, `Publish` of an event whose topic has no
routing entry returns ErrNoSubscribers (it does not block) and leaves the runtime exactly as
it was: no worker received anything, the dispatch counter, the routing table and the worker
counts are unchanged and the registration counter is back at its value.  Statement by
statement, whatever other goroutines do in between: the lookup that misses goes to the
unlock, the unlock goes to the deferred Done with ErrNoSubscribers changing only the read
holders, and at neither point is there a send. -/
theorem publish_without_route (rt : Runtime) (ctx : Context) (event : Event)
    (hopen : rt.b.isClosed = false) (hw : rt.b.topicChannelsLock.writer = false)
    (hmiss : mapGet rt.b.topicChannels event.Topic = none) :
    Publish rt ctx event = some (rt, CallResult.returned (some Error.ErrNoSubscribers)) ∧
    stepCall rt (Call.Publish ctx event) PC.pubLookup = StepOut.goto rt PC.pubMissRUnlock ∧
    (∀ rt1 : Runtime,
      stepCall rt1 (Call.Publish ctx event) PC.pubMissRUnlock =
        StepOut.goto
          { rt1 with b := { rt1.b with topicChannelsLock :=
            { rt1.b.topicChannelsLock with readers := rt1.b.topicChannelsLock.readers - 1 } } }
          (PC.deferDone (some Error.ErrNoSubscribers))) ∧
    (∀ (rt1 : Runtime) (w : Nat),
      handOff rt1 (Call.Publish ctx event) PC.pubMissRUnlock w = none ∧
      handOff rt1 (Call.Publish ctx event) (PC.deferDone (some Error.ErrNoSubscribers)) w = none) := by
  refine ⟨?_, by simp [stepCall, hmiss], fun rt1 => by simp [stepCall, Runtime.withBus],
    fun rt1 w => ⟨rfl, rfl⟩⟩
  obtain ⟨⟨cfg, tc, ⟨r, w⟩, bw, cl, wn, lw⟩, chans, workers, world, execs⟩ := rt
  simp only at hopen hw hmiss
  subst hopen hw
  simp [Publish, runCall, stepCall, Runtime.withBus, hmiss, wgDone]

theorem publish_without_route_witness :
    (newRuntime [] []).b.isClosed = false ∧
    (newRuntime [] []).b.topicChannelsLock.writer = false ∧
    mapGet (newRuntime [] []).b.topicChannels evT.Topic = none ∧
    Publish (newRuntime [] []) Background evT =
      some (newRuntime [] [], CallResult.returned (some Error.ErrNoSubscribers)) :=
  ⟨rfl, rfl, rfl, (publish_without_route (newRuntime [] []) Background evT rfl rfl rfl).1⟩

/-- C8: `Shutdown` of an open bus with a context that is already done returns that context's
error (neither nil nor ErrBusClosed) whatever the two in-flight counters are; the only change
to the runtime is that the closed flag is set (routing table, channels, workers and counters
are as before), and every `Publish` and `Subscribe` that follows returns ErrBusClosed. -/
theorem shutdown_with_done_context (rt : Runtime) (ctx : Context) (e : CtxErr)
    (hopen : rt.b.isClosed = false) (hdone : ctx.err = some e) :
    Shutdown rt ctx =
      some ({ rt with b := { rt.b with isClosed := true } },
        CallResult.returned (some (Error.ctx e))) ∧
    Error.ctx e ≠ Error.ErrBusClosed ∧
    (∀ ctx1 event,
      Publish { rt with b := { rt.b with isClosed := true } } ctx1 event =
        some ({ rt with b := { rt.b with isClosed := true } },
          CallResult.returned (some Error.ErrBusClosed))) ∧
    (∀ ctx1 topic listenerFunc interceptors,
      Subscribe { rt with b := { rt.b with isClosed := true } } ctx1 topic listenerFunc
          interceptors =
        some ({ rt with b := { rt.b with isClosed := true } },
          CallResult.returned (some Error.ErrBusClosed))) := by
  refine ⟨?_, by simp, ?_, ?_⟩
  · simp [Shutdown, runCall, stepCall, Runtime.withBus, hopen, hdone]
  · intro ctx1 event
    simp [Publish, runCall, stepCall]
  · intro ctx1 topic f ics
    simp [Subscribe, runCall, stepCall]

theorem shutdown_with_done_context_witness :
    oneSubscriberRuntime.b.isClosed = false ∧ cancelledContext.err = some CtxErr.Canceled ∧
    Shutdown oneSubscriberRuntime cancelledContext =
      some ({ oneSubscriberRuntime with b := { oneSubscriberRuntime.b with isClosed := true } },
        CallResult.returned (some (Error.ctx CtxErr.Canceled))) :=
  ⟨rfl, rfl,
    (shutdown_with_done_context oneSubscriberRuntime cancelledContext CtxErr.Canceled rfl rfl).1⟩

/-! ### Subscribe run alone -/

theorem Subscribe_eq (rt : Runtime) (ctx : Context) (topic : String) (f : ListenerFunc)
    (ics : List ListenerInterceptorFunc) (hopen : rt.b.isClosed = false)
    (hw : rt.b.topicChannelsLock.writer = false) (hr : rt.b.topicChannelsLock.readers = 0) :
    Subscribe rt ctx topic f ics = some (afterSubscribe rt topic f ics, CallResult.returned none) := by
  obtain ⟨⟨cfg, tc, ⟨r, wr⟩, bw, cl, wn, lw⟩, chans, workers, world, execs⟩ := rt
  simp only at hopen hw hr
  subst hopen hw hr
  cases hg : mapGet tc topic <;>
    simp [Subscribe, runCall, stepCall, Runtime.withBus, wgDone, hg, afterSubscribe]

theorem afterSubscribe_workers (rt : Runtime) (topic : String) (f : ListenerFunc)
    (ics : List ListenerInterceptorFunc) :
    (afterSubscribe rt topic f ics).workers = rt.workers ++
      [{ topicChannel := (mapGet rt.b.topicChannels topic).getD rt.chans.length
         listenerFunc := effectiveListener rt.b.config f ics
         state := WorkerState.idle }] := by
  cases hg : mapGet rt.b.topicChannels topic <;> simp [afterSubscribe, hg]

/-! ### The interceptor chain -/

theorem wrapAll_snoc (g : ListenerFunc) (ics : List ListenerInterceptorFunc)
    (ic : ListenerInterceptorFunc) : wrapAll g (ics ++ [ic]) = ic (wrapAll g ics) := by
  simp [wrapAll, List.foldl_append]

theorem chained_chained (pre1 pre2 : Log → Log) (post1 post2 : Option Error → Log → Log)
    (r : Log → Log × Outcome) (w : Log) :
    chained pre2 post2 (chained pre1 post1 r) w =
      chained (fun w0 => pre1 (pre2 w0)) (fun e w2 => post2 e (post1 e w2)) r w := by
  unfold chained
  cases hq : r (pre1 (pre2 w)) with
  | mk w2 o => cases o <;> simp [hq]

theorem around_eq_chained (p : Advice) (next : ListenerFunc) (ctx : Context) (ev : Event) :
    around p next ctx ev = chained (p.1 ctx ev) (p.2 ctx ev) (next ctx ev) := rfl

theorem wrapAll_around (g : ListenerFunc) (ps : List Advice) (ctx : Context) (ev : Event) :
    wrapAll g (ps.map around) ctx ev =
      chained (runPre ps.reverse ctx ev) (runPost ps ctx ev) (g ctx ev) := by
  induction ps using List.reverseRecOn with
  | nil =>
    funext w
    simp only [wrapAll, chained, runPre, runPost, List.map_nil, List.foldl_nil, List.reverse_nil]
    cases hq : g ctx ev w with
    | mk w2 o => cases o <;> rfl
  | append_singleton ps p ih =>
    rw [List.map_append, List.map_singleton, wrapAll_snoc, around_eq_chained, ih]
    funext w
    rw [chained_chained]
    have h1 : (fun w0 => runPre ps.reverse ctx ev (p.1 ctx ev w0)) =
        runPre (ps ++ [p]).reverse ctx ev := by
      funext w0; simp [runPre]
    have h2 : (fun e w2 => p.2 ctx ev e (runPost ps ctx ev e w2)) =
        runPost (ps ++ [p]) ctx ev := by
      funext e w2; simp [runPost, List.foldl_append]
    rw [h1, h2]

theorem effective_around (cfg : BusConfig) (f : ListenerFunc) (locals globals : List Advice)
    (hcfg : cfg.ListenerInterceptors = globals.map around) (ctx : Context) (ev : Event) :
    effectiveListener cfg f (locals.map around) ctx ev =
      chained (fun w0 => runPre locals.reverse ctx ev (runPre globals.reverse ctx ev w0))
        (fun e w2 => runPost globals ctx ev e (runPost locals ctx ev e w2)) (f ctx ev) := by
  unfold effectiveListener
  rw [hcfg, wrapAll_around, wrapAll_around]
  funext w
  rw [chained_chained]

/-- C4: `Subscribe` on an open, unlocked bus returns nil and starts one worker whose listener
is the raw listener wrapped first by the subscription interceptors and then by the global
ones, the last global interceptor outermost.  When the interceptors run code before and after
a single call of `next`, a delivery runs the code before `next` of all the global
interceptors, then that of all the subscription interceptors, then the raw listener (then the
code after `next`, subscription interceptors first). -/
theorem global_interceptors_run_first (rt : Runtime) (ctx0 : Context) (topic : String)
    (f : ListenerFunc) (interceptors : List ListenerInterceptorFunc)
    (hopen : rt.b.isClosed = false) (hw : rt.b.topicChannelsLock.writer = false)
    (hr : rt.b.topicChannelsLock.readers = 0) :
    ∃ rt1 wk, Subscribe rt ctx0 topic f interceptors = some (rt1, CallResult.returned none) ∧
      rt1.workers = rt.workers ++ [wk] ∧ wk.state = WorkerState.idle ∧
      wk.listenerFunc = wrapAll (wrapAll f interceptors) rt.b.config.ListenerInterceptors ∧
      (∀ g ic, wrapAll g (rt.b.config.ListenerInterceptors ++ [ic]) =
        ic (wrapAll g rt.b.config.ListenerInterceptors)) ∧
      (∀ locals globals : List Advice, interceptors = locals.map around →
        rt.b.config.ListenerInterceptors = globals.map around →
        ∀ ctx ev, wk.listenerFunc ctx ev =
          chained (fun w0 => runPre locals.reverse ctx ev (runPre globals.reverse ctx ev w0))
            (fun e w2 => runPost globals ctx ev e (runPost locals ctx ev e w2)) (f ctx ev)) := by
  refine ⟨_, _, Subscribe_eq rt ctx0 topic f interceptors hopen hw hr,
    afterSubscribe_workers rt topic f interceptors, rfl, rfl, ?_, ?_⟩
  · intro g ic
    exact wrapAll_snoc g _ ic
  · intro locals globals hl hg ctx ev
    subst hl
    exact effective_around rt.b.config f locals globals hg ctx ev

theorem global_interceptors_run_first_witness :
    (newRuntime [WithListenerInterceptors [around testInterceptor]] []).b.isClosed = false ∧
    ∃ rt1 wk, Subscribe (newRuntime [WithListenerInterceptors [around testInterceptor]] [])
        Background "org.acme.users" testListener [around testInterceptorChild] =
          some (rt1, CallResult.returned none) ∧
      rt1.workers = [wk] ∧
      wk.listenerFunc (WithValue Background "some-key" "some-value") evT [] =
        (["executing listener func", "executing listener func, interceptor child",
          "interceptor child got ctx value", "received message", "listener error"],
          Outcome.ret (some (Error.other "test error"))) := by
  refine ⟨rfl, ?_⟩
  obtain ⟨rt1, wk, h1, h2, _, _, _, h6⟩ :=
    global_interceptors_run_first (newRuntime [WithListenerInterceptors [around testInterceptor]] [])
      Background "org.acme.users" testListener [around testInterceptorChild] rfl rfl rfl
  refine ⟨rt1, wk, h1, by simpa [newRuntime] using h2, ?_⟩
  rw [h6 [testInterceptorChild] [testInterceptor] rfl rfl]
  decide

/-- C5 (counterexample): with the global interceptor G, the subscription interceptor L and
the raw listener f, the listener `Subscribe` hands to its worker logs G, L, f on a delivery,
whereas L wrapped outside G wrapped outside f logs L, G, f; the two listeners differ. -/
theorem local_outside_global_refuted :
    (Subscribe (newRuntime [WithListenerInterceptors [traceG]] []) Background "t" traceF
        [traceL]).map
      (fun out => out.1.workers.map (fun wk => (wk.listenerFunc Background evT []).1)) =
      some [["G", "L", "f"]] ∧
    (traceL (traceG traceF) Background evT []).1 = ["L", "G", "f"] ∧
    effectiveListener (NewBusChannel [WithListenerInterceptors [traceG]]).config traceF [traceL] ≠
      traceL (traceG traceF) := by
  refine ⟨by decide!, by decide, ?_⟩
  intro h
  have h1 := congrArg (fun l : ListenerFunc => (l Background evT []).1) h
  revert h1
  decide

/-- C5 (amended): with one global interceptor G and one subscription interceptor L,
`Subscribe` on an open, unlocked bus returns nil and starts one worker whose listener is
G (L f): G wraps outside L and L wraps outside the raw listener.  When G and L run code before
and after a single call of `next`, a delivery runs the code before `next` of G, then that of
L, then f, then the code after `next` of L, then that of G. -/
theorem global_wraps_outside_local (rt : Runtime) (ctx0 : Context) (topic : String)
    (f : ListenerFunc) (G L : ListenerInterceptorFunc)
    (hopen : rt.b.isClosed = false) (hw : rt.b.topicChannelsLock.writer = false)
    (hr : rt.b.topicChannelsLock.readers = 0) (hcfg : rt.b.config.ListenerInterceptors = [G]) :
    ∃ rt1 wk, Subscribe rt ctx0 topic f [L] = some (rt1, CallResult.returned none) ∧
      rt1.workers = rt.workers ++ [wk] ∧ wk.state = WorkerState.idle ∧
      wk.listenerFunc = G (L f) ∧
      (∀ g l : Advice, G = around g → L = around l → ∀ ctx ev,
        wk.listenerFunc ctx ev =
          chained (fun w0 => l.1 ctx ev (g.1 ctx ev w0))
            (fun e w2 => g.2 ctx ev e (l.2 ctx ev e w2)) (f ctx ev)) := by
  have hwk : effectiveListener rt.b.config f [L] = G (L f) := by
    simp [effectiveListener, wrapAll, hcfg]
  refine ⟨_, _, Subscribe_eq rt ctx0 topic f [L] hopen hw hr,
    afterSubscribe_workers rt topic f [L], rfl, hwk, ?_⟩
  intro g l hG hL ctx ev
  subst hG hL
  have := effective_around rt.b.config f [l] [g] (by simpa using hcfg) ctx ev
  simpa [runPre, runPost] using this

theorem global_wraps_outside_local_witness :
    (newRuntime [WithListenerInterceptors [traceG]] []).b.config.ListenerInterceptors = [traceG] ∧
    ∃ rt1 wk, Subscribe (newRuntime [WithListenerInterceptors [traceG]] []) Background "t" traceF
        [traceL] = some (rt1, CallResult.returned none) ∧
      rt1.workers = [wk] ∧ wk.listenerFunc = traceG (traceL traceF) := by
  refine ⟨rfl, ?_⟩
  obtain ⟨rt1, wk, h1, h2, _, h4, _⟩ :=
    global_wraps_outside_local (newRuntime [WithListenerInterceptors [traceG]] []) Background "t"
      traceF traceG traceL rfl rfl rfl rfl
  exact ⟨rt1, wk, h1, by simpa [newRuntime] using h2, h4⟩

/-! ### Sequences of Subscribe -/

theorem afterSubscribe_step (rt : Runtime) (seen : List String) (topic : String) (f : ListenerFunc)
    (ics : List ListenerInterceptorFunc) (h : SeqSubscribed rt seen) :
    SeqSubscribed (afterSubscribe rt topic f ics) (seen ++ [topic]) ∧
    (∀ t ch, mapGet rt.b.topicChannels t = some ch →
      mapGet (afterSubscribe rt topic f ics).b.topicChannels t = some ch) ∧
    (mapGet rt.b.topicChannels topic = none →
      mapGet (afterSubscribe rt topic f ics).b.topicChannels topic = some rt.chans.length ∧
      (afterSubscribe rt topic f ics).chans = rt.chans ++ [false]) := by
  cases hg : mapGet rt.b.topicChannels topic with
  | none =>
    have hns : topic ∉ seen := by
      intro hin
      have := (h.routed topic).2 hin
      simp [hg] at this
    refine ⟨?_, ?_, ?_⟩
    · constructor
      · simp [afterSubscribe, hg, h.isOpen]
      · simp [afterSubscribe, hg, h.noWriter]
      · simp [afterSubscribe, hg, h.noReader]
      · intro t
        simp only [afterSubscribe, hg, mapGet_mapSet]
        by_cases ht : topic = t
        · simp [ht]
        · have := h.routed t
          simp [ht, this, Ne.symm ht]
      · intro t
        simp only [afterSubscribe, hg, mapGet_mapSet]
        by_cases ht : topic = t
        · subst ht
          simp [List.count_eq_zero_of_not_mem hns]
        · have := h.counted t
          simp [ht, this, List.count_append, Ne.symm ht]
      · intro t ch hch
        simp only [afterSubscribe, hg, mapGet_mapSet] at hch
        by_cases ht : topic = t
        · subst ht
          simp only [if_true, Option.some.injEq] at hch
          subst hch
          have hz : workersOn rt rt.chans.length = 0 := by
            simp only [workersOn, List.countP_eq_zero]
            intro wk hwk
            have := h.bound wk hwk
            simp only [Bool.and_eq_true, decide_eq_true_eq, not_and]
            intro hc
            omega
          simp only [workersOn] at hz
          simp [afterSubscribe, hg, workersOn, List.countP_append, hz,
            List.count_eq_zero_of_not_mem hns]
        · simp only [ht, if_false] at hch
          obtain ⟨h1, h2⟩ := h.served t ch hch
          have hlt : ch < rt.chans.length := by
            by_contra hge
            simp [List.getElem?_eq_none (Nat.le_of_not_lt hge)] at h1
          have hne : rt.chans.length ≠ ch := by omega
          simp only [workersOn] at h2
          simp [afterSubscribe, hg, workersOn, List.countP_append, h2, List.count_append,
            Ne.symm ht, hne, List.getElem?_append_left hlt, h1]
      · intro t1 t2 ch h1 h2
        simp only [afterSubscribe, hg, mapGet_mapSet] at h1 h2
        by_cases ht1 : topic = t1
        · by_cases ht2 : topic = t2
          · rw [← ht1, ← ht2]
          · simp only [ht1, ht2, if_true, if_false, Option.some.injEq] at h1 h2
            subst h1
            rw [← ht1] at h2
            simp only [ht2, if_false] at h2
            have := (h.served t2 _ h2).1
            simp at this
        · by_cases ht2 : topic = t2
          · simp only [ht1, ht2, if_true, if_false, Option.some.injEq] at h1 h2
            subst h2
            rw [← ht2] at h1
            simp only [ht1, if_false] at h1
            have := (h.served t1 _ h1).1
            simp at this
          · simp only [ht1, ht2, if_false] at h1 h2
            exact h.inj t1 t2 ch h1 h2
      · intro wk hwk
        simp only [afterSubscribe, hg, List.mem_append, List.mem_singleton, List.length_append,
          List.length_singleton] at hwk ⊢
        rcases hwk with hwk | hwk
        · have := h.bound wk hwk
          omega
        · subst hwk
          simp
    · intro t ch hch
      simp only [afterSubscribe, hg, mapGet_mapSet]
      by_cases ht : topic = t
      · subst ht
        rw [hg] at hch
        cases hch
      · simp [ht, hch]
    · intro _
      simp [afterSubscribe, hg, mapGet_mapSet]
  | some ch0 =>
    have hs : topic ∈ seen := by
      apply (h.routed topic).1
      simp [hg]
    obtain ⟨hc1, hc2⟩ := h.served topic ch0 hg
    have hlt0 : ch0 < rt.chans.length := by
      by_contra hge
      simp [List.getElem?_eq_none (Nat.le_of_not_lt hge)] at hc1
    refine ⟨?_, ?_, ?_⟩
    · constructor
      · simp [afterSubscribe, hg, h.isOpen]
      · simp [afterSubscribe, hg, h.noWriter]
      · simp [afterSubscribe, hg, h.noReader]
      · intro t
        have := h.routed t
        simp only [afterSubscribe, hg, this, List.mem_append, List.mem_singleton]
        constructor
        · intro x; exact Or.inl x
        · intro x
          rcases x with x | x
          · exact x
          · subst x; exact hs
      · intro t
        simp only [afterSubscribe, hg, mapGet_mapSet]
        by_cases ht : topic = t
        · subst ht
          have := h.counted topic
          simp [this, List.count_append]
        · have := h.counted t
          simp [ht, this, List.count_append, Ne.symm ht]
      · intro t ch hch
        simp only [afterSubscribe, hg] at hch
        obtain ⟨h1, h2⟩ := h.served t ch hch
        simp only [workersOn] at h2
        by_cases ht : topic = t
        · subst ht
          rw [hg] at hch
          cases hch
          simp [afterSubscribe, hg, workersOn, List.countP_append, h2, List.count_append, h1]
        · have hne : ch0 ≠ ch := by
            intro hcc
            subst hcc
            exact ht (h.inj topic t ch0 hg hch)
          simp [afterSubscribe, hg, workersOn, List.countP_append, h2, List.count_append, h1,
            Ne.symm ht, hne]
      · intro t1 t2 ch h1 h2
        simp only [afterSubscribe, hg] at h1 h2
        exact h.inj t1 t2 ch h1 h2
      · intro wk hwk
        simp only [afterSubscribe, hg, List.mem_append, List.mem_singleton] at hwk ⊢
        rcases hwk with hwk | hwk
        · exact h.bound wk hwk
        · subst hwk
          exact hlt0
    · intro t ch hch
      simpa [afterSubscribe, hg] using hch
    · intro hn
      cases hn

theorem subscribeAll_append (rt rt1 rt2 : Runtime) (xs ys : List SubReq) (rs1 rs2 : List CallResult)
    (h1 : subscribeAll rt xs = some (rt1, rs1)) (h2 : subscribeAll rt1 ys = some (rt2, rs2)) :
    subscribeAll rt (xs ++ ys) = some (rt2, rs1 ++ rs2) := by
  induction xs generalizing rt rs1 with
  | nil =>
    simp only [subscribeAll, Option.some.injEq, Prod.mk.injEq] at h1
    obtain ⟨rfl, rfl⟩ := h1
    simpa using h2
  | cons x xs ih =>
    simp only [subscribeAll] at h1
    cases hx : Subscribe rt x.ctx x.topic x.listenerFunc x.interceptors with
    | none => simp [hx] at h1
    | some p =>
      obtain ⟨rta, res⟩ := p
      simp only [hx] at h1
      cases hxs : subscribeAll rta xs with
      | none => simp [hxs] at h1
      | some q =>
        obtain ⟨rtb, rs⟩ := q
        simp only [hxs, Option.some.injEq, Prod.mk.injEq] at h1
        obtain ⟨rfl, rfl⟩ := h1
        have := ih rta rs hxs
        rw [List.cons_append]
        simp only [subscribeAll, hx, this, List.cons_append]

theorem subscribeAll_ok (rt : Runtime) (seen : List String) (reqs : List SubReq)
    (h : SeqSubscribed rt seen) :
    ∃ rt1, subscribeAll rt reqs = some (rt1, reqs.map (fun _ => CallResult.returned none)) ∧
      SeqSubscribed rt1 (seen ++ reqs.map (fun r => r.topic)) ∧
      ∀ t ch, mapGet rt.b.topicChannels t = some ch → mapGet rt1.b.topicChannels t = some ch := by
  induction reqs generalizing rt seen with
  | nil => exact ⟨rt, rfl, by simpa using h, fun _ _ hh => hh⟩
  | cons r rest ih =>
    obtain ⟨hs, hkeep, _⟩ := afterSubscribe_step rt seen r.topic r.listenerFunc r.interceptors h
    obtain ⟨rt2, h2, hs2, hkeep2⟩ := ih _ _ hs
    refine ⟨rt2, ?_, ?_, ?_⟩
    · simp [subscribeAll, Subscribe_eq rt r.ctx r.topic r.listenerFunc r.interceptors
        h.isOpen h.noWriter h.noReader, h2]
    · simpa using hs2
    · intro t ch hh
      exact hkeep2 t ch (hkeep t ch hh)

theorem seqSubscribed_new (opts : List BusOption) (world : Log) :
    SeqSubscribed (newRuntime opts world) [] := by
  constructor <;> simp [newRuntime, NewBusChannel, mapGet]

/-- C10: `Subscribe` calls made one at a time on a fresh bus all return nil, and afterwards,
for every topic t: t has a routing entry exactly when it was subscribed; its recorded worker
count is the number of `Subscribe` calls made for t; its channel is open and the number of
workers waiting at the receive of that channel is that same number.  Moreover, at every
point of the sequence, a `Subscribe` to a topic not subscribed before creates a fresh channel
and routes the topic to it, a `Subscribe` leaves every existing entry as it is, and the final
table still holds every entry made on the way: the channel of t is the one created by the first
`Subscribe` to t. -/
theorem sequential_subscribes (opts : List BusOption) (world : Log) (reqs : List SubReq) :
    ∃ rt, subscribeAll (newRuntime opts world) reqs =
        some (rt, reqs.map (fun _ => CallResult.returned none)) ∧
      (∀ t, (mapGet rt.b.topicChannels t).isSome ↔ t ∈ reqs.map (fun r => r.topic)) ∧
      (∀ t, (mapGet rt.b.topicListenerWorkerNum t).getD 0 = (reqs.map (fun r => r.topic)).count t) ∧
      (∀ t ch, mapGet rt.b.topicChannels t = some ch →
        rt.chans[ch]? = some false ∧ workersOn rt ch = (reqs.map (fun r => r.topic)).count t) ∧
      (∀ pre r post, reqs = pre ++ r :: post →
        ∃ rt1 rt2, subscribeAll (newRuntime opts world) pre =
            some (rt1, pre.map (fun _ => CallResult.returned none)) ∧
          Subscribe rt1 r.ctx r.topic r.listenerFunc r.interceptors =
            some (rt2, CallResult.returned none) ∧
          (r.topic ∉ pre.map (fun r => r.topic) →
            mapGet rt1.b.topicChannels r.topic = none ∧
            mapGet rt2.b.topicChannels r.topic = some rt1.chans.length ∧
            rt2.chans = rt1.chans ++ [false]) ∧
          (∀ t ch, mapGet rt1.b.topicChannels t = some ch →
            mapGet rt2.b.topicChannels t = some ch) ∧
          (∀ t ch, mapGet rt2.b.topicChannels t = some ch →
            mapGet rt.b.topicChannels t = some ch)) := by
  obtain ⟨rt, hrun, hs, _⟩ := subscribeAll_ok _ [] reqs (seqSubscribed_new opts world)
  simp only [List.nil_append] at hs
  refine ⟨rt, hrun, hs.routed, hs.counted, hs.served, ?_⟩
  intro pre r post hsplit
  obtain ⟨rt1, hrun1, hs1, _⟩ := subscribeAll_ok _ [] pre (seqSubscribed_new opts world)
  simp only [List.nil_append] at hs1
  obtain ⟨hs2, hkeep2, hfresh⟩ :=
    afterSubscribe_step rt1 _ r.topic r.listenerFunc r.interceptors hs1
  obtain ⟨rt3, hrun3, _, hkeep3⟩ := subscribeAll_ok _ _ post hs2
  have heq : rt3 = rt := by
    have h1 : subscribeAll (newRuntime opts world) (pre ++ r :: post) =
        some (rt3, (pre ++ r :: post).map (fun _ => CallResult.returned none)) := by
      have h2 : subscribeAll rt1 (r :: post) =
          some (rt3, (r :: post).map (fun _ => CallResult.returned none)) := by
        simp [subscribeAll, Subscribe_eq rt1 r.ctx r.topic r.listenerFunc r.interceptors
          hs1.isOpen hs1.noWriter hs1.noReader, hrun3]
      rw [subscribeAll_append _ _ _ _ _ _ _ hrun1 h2, List.map_append]
    rw [← hsplit, hrun] at h1
    simp only [Option.some.injEq, Prod.mk.injEq] at h1
    exact h1.1.symm
  subst heq
  refine ⟨rt1, _, hrun1, Subscribe_eq rt1 r.ctx r.topic r.listenerFunc r.interceptors
    hs1.isOpen hs1.noWriter hs1.noReader, ?_, hkeep2, hkeep3⟩
  intro hnew
  have hnone : mapGet rt1.b.topicChannels r.topic = none := by
    have := (hs1.routed r.topic)
    cases hq : mapGet rt1.b.topicChannels r.topic with
    | none => rfl
    | some c =>
      rw [hq] at this
      exact absurd (this.1 rfl) hnew
  exact ⟨hnone, hfresh hnone⟩


/-! ### One caller publishing to one subscriber -/

section
variable {rt0 : Runtime} {T : String} {ch w : Nat} {wk0 : Worker} {pairs : List ctxEventPair}

theorem drop_pub (k : Nat) (p : ctxEventPair) (hk : pairs[k]? = some p) :
    (pairs.drop k).map pubCall = Call.Publish p.ctx p.event :: (pairs.drop (k + 1)).map pubCall := by
  obtain ⟨hlt, hp⟩ := List.getElem?_eq_some.1 hk
  rw [List.drop_eq_getElem_cons hlt, hp]
  rfl

theorem wlt (h : OneSubscriber rt0 T ch w wk0) : w < rt0.workers.length :=
  (List.getElem?_eq_some.1 h.worker).1

theorem pub_entry (h : OneSubscriber rt0 T ch w wk0) (k : Nat) (p : ctxEventPair)
    (hk : pairs[k]? = some p) (st : WorkerState) (j bw lw r : Nat) (world : Log) :
    step (pubState rt0 pairs w wk0 k PC.entry st j bw lw r world) (Label.thr 0) =
      some (pubState rt0 pairs w wk0 k PC.pubAdd st j bw lw r world) := by
  simp [step, pubState, drop_pub k p hk, stepCall, h.isOpen]

theorem pub_add (k : Nat) (p : ctxEventPair)
    (hk : pairs[k]? = some p) (st : WorkerState) (j bw lw r : Nat) (world : Log) :
    step (pubState rt0 pairs w wk0 k PC.pubAdd st j bw lw r world) (Label.thr 0) =
      some (pubState rt0 pairs w wk0 k PC.pubRLock st j (bw + 1) lw r world) := by
  simp [step, pubState, drop_pub k p hk, stepCall, Runtime.withBus]

theorem pub_rlock (k : Nat) (p : ctxEventPair)
    (hk : pairs[k]? = some p) (st : WorkerState) (j bw lw r : Nat) (world : Log) :
    step (pubState rt0 pairs w wk0 k PC.pubRLock st j bw lw r world) (Label.thr 0) =
      some (pubState rt0 pairs w wk0 k PC.pubLookup st j bw lw (r + 1) world) := by
  simp [step, pubState, drop_pub k p hk, stepCall, Runtime.withBus]

theorem pub_lookup (h : OneSubscriber rt0 T ch w wk0) (k : Nat) (p : ctxEventPair)
    (hk : pairs[k]? = some p) (hT : p.event.Topic = T)
    (st : WorkerState) (j bw lw r : Nat) (world : Log) :
    step (pubState rt0 pairs w wk0 k PC.pubLookup st j bw lw r world) (Label.thr 0) =
      some (pubState rt0 pairs w wk0 k (PC.pubAddListeners ch) st j bw lw r world) := by
  simp [step, pubState, drop_pub k p hk, stepCall, hT, h.route]

theorem pub_addListeners (h : OneSubscriber rt0 T ch w wk0) (k : Nat) (p : ctxEventPair)
    (hk : pairs[k]? = some p) (hT : p.event.Topic = T)
    (st : WorkerState) (j bw lw r : Nat) (world : Log) :
    step (pubState rt0 pairs w wk0 k (PC.pubAddListeners ch) st j bw lw r world) (Label.thr 0) =
      some (pubState rt0 pairs w wk0 k (PC.pubRUnlock ch) st j bw (lw + 1) r world) := by
  simp [step, pubState, drop_pub k p hk, stepCall, Runtime.withBus, hT, h.num]

theorem pub_runlock (k : Nat) (p : ctxEventPair)
    (hk : pairs[k]? = some p) (st : WorkerState) (j bw lw r : Nat) (world : Log) :
    step (pubState rt0 pairs w wk0 k (PC.pubRUnlock ch) st j bw lw r world) (Label.thr 0) =
      some (pubState rt0 pairs w wk0 k (PC.pubSend ch) st j bw lw (r - 1) world) := by
  simp [step, pubState, drop_pub k p hk, stepCall, Runtime.withBus]

theorem pub_send_blocked (h : OneSubscriber rt0 T ch w wk0) (k : Nat) (p : ctxEventPair)
    (hk : pairs[k]? = some p) (st : WorkerState) (j bw lw r : Nat) (world : Log) :
    step (pubState rt0 pairs w wk0 k (PC.pubSend ch) st j bw lw r world) (Label.thr 0) = none := by
  simp [step, pubState, drop_pub k p hk, stepCall, h.chOpen]

theorem pub_send (h : OneSubscriber rt0 T ch w wk0) (k : Nat) (p : ctxEventPair)
    (hk : pairs[k]? = some p) (j bw lw r : Nat) (world : Log) :
    step (pubState rt0 pairs w wk0 k (PC.pubSend ch) WorkerState.idle j bw lw r world) (Label.send 0 w) =
      some (pubState rt0 pairs w wk0 k (PC.deferDone none) (WorkerState.running p) j bw lw r world) := by
  simp [step, pubState, drop_pub k p hk, handOff, wlt h, h.wkCh, h.chOpen, List.set_set]

theorem pub_done (k : Nat) (p : ctxEventPair)
    (hk : pairs[k]? = some p) (st : WorkerState) (j bw lw r : Nat) (world : Log) :
    step (pubState rt0 pairs w wk0 k (PC.deferDone none) st j (bw + 1) lw r world) (Label.thr 0) =
      some (pubState rt0 pairs w wk0 (k + 1) PC.entry st j bw lw r world) := by
  simp [step, pubState, drop_pub k p hk, stepCall, Runtime.withBus, wgDone, List.replicate_succ']

theorem wrk_run (h : OneSubscriber rt0 T ch w wk0) (k : Nat) (pc : PC) (p : ctxEventPair)
    (j bw lw r : Nat) (hj : pairs[j]? = some p) (world : Log) :
    step (pubState rt0 pairs w wk0 k pc (WorkerState.running p) j bw lw r world) (Label.wrk w) =
      some (pubState rt0 pairs w wk0 k pc
        (WorkerState.finishing (runListener rt0.b.config p wk0.listenerFunc world).2) (j + 1) bw lw r
        (runListener rt0.b.config p wk0.listenerFunc world).1) := by
  simp [step, pubState, stepWorker, wlt h, List.set_set, List.take_succ, hj]

theorem wrk_finish (h : OneSubscriber rt0 T ch w wk0) (k : Nat) (pc : PC) (o : Outcome)
    (j bw lw r : Nat) (world : Log) :
    step (pubState rt0 pairs w wk0 k pc (WorkerState.finishing o) j bw (lw + 1) r world) (Label.wrk w) =
      some (pubState rt0 pairs w wk0 k pc WorkerState.idle j bw lw r world) := by
  cases o <;>
  simp [step, pubState, stepWorker, wlt h, List.set_set, execListenerDeferred, wgDone]

theorem wrk_idle (h : OneSubscriber rt0 T ch w wk0) (k : Nat) (pc : PC)
    (j bw lw r : Nat) (world : Log) :
    step (pubState rt0 pairs w wk0 k pc WorkerState.idle j bw lw r world) (Label.wrk w) = none := by
  simp [step, pubState, stepWorker, wlt h, h.wkCh, h.chOpen]

theorem wrk_other (h : OneSubscriber rt0 T ch w wk0) (k : Nat) (pc : PC) (st : WorkerState)
    (j bw lw r : Nat) (world : Log) (w1 : Nat) (hne : w1 ≠ w) :
    step (pubState rt0 pairs w wk0 k pc st j bw lw r world) (Label.wrk w1) = none := by
  simp only [step, pubState, stepWorker, List.getElem?_set_ne (Ne.symm hne)]
  cases hw : rt0.workers[w1]? with
  | none => rfl
  | some wk1 =>
    obtain ⟨_, hq⟩ := h.others w1 wk1 hne hw
    rcases hq with ⟨h1, h2⟩ | h1
    · simp [h1, h2]
    · simp [h1]

theorem thr_other (k : Nat) (pc : PC) (st : WorkerState)
    (j bw lw r : Nat) (world : Log) (i : Nat) :
    step (pubState rt0 pairs w wk0 k pc st j bw lw r world) (Label.thr (i + 1)) = none := by
  simp [step, pubState]

theorem send_other_thread (k : Nat) (pc : PC) (st : WorkerState)
    (j bw lw r : Nat) (world : Log) (i w1 : Nat) :
    step (pubState rt0 pairs w wk0 k pc st j bw lw r world) (Label.send (i + 1) w1) = none := by
  simp [step, pubState]

theorem send_other_worker (h : OneSubscriber rt0 T ch w wk0) (k : Nat) (st : WorkerState)
    (j bw lw r : Nat) (world : Log) (w1 : Nat) (hne : w1 ≠ w) :
    step (pubState rt0 pairs w wk0 k (PC.pubSend ch) st j bw lw r world) (Label.send 0 w1) = none := by
  simp only [step, pubState]
  cases hd : List.map pubCall (List.drop k pairs) with
  | nil => simp
  | cons c rest =>
    cases c with
    | Publish ctx ev =>
      simp only [List.getElem?_cons_zero, handOff, List.getElem?_set_ne (Ne.symm hne)]
      cases hw : rt0.workers[w1]? with
      | none => rfl
      | some wk1 =>
        obtain ⟨hq, _⟩ := h.others w1 wk1 hne hw
        simp [hq]
    | Subscribe _ _ _ _ => simp [handOff]
    | Shutdown _ => simp [handOff]

end


section
variable {rt0 : Runtime} {T : String} {ch w : Nat} {wk0 : Worker} {pairs : List ctxEventPair}

theorem thr_finished (k : Nat) (hk : pairs.length ≤ k) (pc : PC) (st : WorkerState)
    (j bw lw r : Nat) (world : Log) (l : Label) (hl : l = Label.thr 0 ∨ ∃ w1, l = Label.send 0 w1) :
    step (pubState rt0 pairs w wk0 k pc st j bw lw r world) l = none := by
  rcases hl with rfl | ⟨w1, rfl⟩ <;> simp [step, pubState, List.drop_eq_nil_of_le hk]

theorem send_wrong_pc (k : Nat) (pc : PC) (hpc : ∀ c, pc ≠ PC.pubSend c) (st : WorkerState)
    (j bw lw r : Nat) (world : Log) (w1 : Nat) :
    step (pubState rt0 pairs w wk0 k pc st j bw lw r world) (Label.send 0 w1) = none := by
  simp only [step, pubState]
  cases hd : List.map pubCall (List.drop k pairs) with
  | nil => simp
  | cons c rest =>
    cases c <;> cases pc <;> simp_all [handOff]

theorem send_busy (k : Nat) (st : WorkerState) (hst : st ≠ WorkerState.idle)
    (j bw lw r : Nat) (world : Log) (hw : w < rt0.workers.length) :
    step (pubState rt0 pairs w wk0 k (PC.pubSend ch) st j bw lw r world) (Label.send 0 w) = none := by
  simp only [step, pubState]
  cases hd : List.map pubCall (List.drop k pairs) with
  | nil => simp
  | cons c rest =>
    cases c <;> simp [handOff, hw, hst]

theorem getElem_of_lt (k : Nat) (hk : k < pairs.length) : pairs[k]? = some pairs[k] := by
  simp [hk]

theorem pubInv_step (h : OneSubscriber rt0 T ch w wk0) (hT : ∀ p ∈ pairs, p.event.Topic = T)
    (m m1 : Machine) (L : Nat) (l : Label) (hinv : PubInv rt0 pairs ch w wk0 m L)
    (hstep : step m l = some m1) : PubInv rt0 pairs ch w wk0 m1 (L + 1) := by
  obtain ⟨k, pc, st, j, bw, lw, r, world, rfl, hg, hL, hwd, hbw, hlw, hr⟩ := hinv
  have hTk : ∀ p, pairs[k]? = some p → p.event.Topic = T := fun p hp =>
    hT p (List.getElem?_mem hp)
  cases l with
  | thr i =>
    cases i with
    | succ i => simp [thr_other] at hstep
    | zero =>
      by_cases hk : k < pairs.length
      · have hp := getElem_of_lt k hk
        rcases hg.pcOk with rfl | rfl | rfl | rfl | rfl | rfl | rfl | rfl
        · rw [pub_entry h k _ hp] at hstep
          cases hstep
          exact ⟨_, _, _, _, _, _, _, _, rfl,
            ⟨hg.kle, by simp, by omega, by simp [regOf], by simpa [latchOf] using hg.latch,
              hg.notExited, hg.held, by simpa [sentOf] using hg.count⟩, by simp [pcRank] at hL ⊢; omega, hwd,
            (by first | omega | (simp only [regOf] at hbw ⊢; omega)),
            (by first | omega | (simp only [latchOf, busyOf] at hlw ⊢; omega)),
            (by first | omega | (simp only [readOf] at hr ⊢; omega))⟩
        · rw [pub_add k _ hp] at hstep
          cases hstep
          exact ⟨_, _, _, _, _, _, _, _, rfl,
            ⟨hg.kle, by simp, by omega, by simp [regOf], by simpa [latchOf] using hg.latch,
              hg.notExited, hg.held, by simpa [sentOf] using hg.count⟩, by simp [pcRank] at hL ⊢; omega, hwd,
            (by first | omega | (simp only [regOf] at hbw ⊢; omega)),
            (by first | omega | (simp only [latchOf, busyOf] at hlw ⊢; omega)),
            (by first | omega | (simp only [readOf] at hr ⊢; omega))⟩
        · rw [pub_rlock k _ hp] at hstep
          cases hstep
          exact ⟨_, _, _, _, _, _, _, _, rfl,
            ⟨hg.kle, by simp, by omega, by simpa [regOf] using hg.reg,
              by simpa [latchOf] using hg.latch,
              hg.notExited, hg.held, by simpa [sentOf] using hg.count⟩, by simp [pcRank] at hL ⊢; omega, hwd,
            (by first | omega | (simp only [regOf] at hbw ⊢; omega)),
            (by first | omega | (simp only [latchOf, busyOf] at hlw ⊢; omega)),
            (by first | omega | (simp only [readOf] at hr ⊢; omega))⟩
        · rw [pub_lookup h k _ hp (hTk _ hp)] at hstep
          cases hstep
          exact ⟨_, _, _, _, _, _, _, _, rfl,
            ⟨hg.kle, by simp, by omega, by simpa [regOf] using hg.reg,
              by simpa [latchOf] using hg.latch,
              hg.notExited, hg.held, by simpa [sentOf] using hg.count⟩, by simp [pcRank] at hL ⊢; omega, hwd,
            (by first | omega | (simp only [regOf] at hbw ⊢; omega)),
            (by first | omega | (simp only [latchOf, busyOf] at hlw ⊢; omega)),
            (by first | omega | (simp only [readOf] at hr ⊢; omega))⟩
        · rw [pub_addListeners h k _ hp (hTk _ hp)] at hstep
          cases hstep
          exact ⟨_, _, _, _, _, _, _, _, rfl,
            ⟨hg.kle, by simp, by omega, by simpa [regOf] using hg.reg,
              by have := hg.latch; simp [latchOf] at this ⊢; omega,
              hg.notExited, hg.held, by simpa [sentOf] using hg.count⟩, by simp [pcRank] at hL ⊢; omega, hwd,
            (by first | omega | (simp only [regOf] at hbw ⊢; omega)),
            (by first | omega | (simp only [latchOf, busyOf] at hlw ⊢; omega)),
            (by first | omega | (simp only [readOf] at hr ⊢; omega))⟩
        · rw [pub_runlock k _ hp] at hstep
          cases hstep
          exact ⟨_, _, _, _, _, _, _, _, rfl,
            ⟨hg.kle, by simp, by omega, by simpa [regOf] using hg.reg,
              by simpa [latchOf] using hg.latch,
              hg.notExited, hg.held, by simpa [sentOf] using hg.count⟩, by simp [pcRank] at hL ⊢; omega, hwd,
            (by first | omega | (simp only [regOf] at hbw ⊢; omega)),
            (by first | omega | (simp only [latchOf, busyOf] at hlw ⊢; omega)),
            (by first | omega | (simp only [readOf] at hr ⊢; omega))⟩
        · rw [pub_send_blocked h k _ hp] at hstep
          cases hstep
        · have hb : 1 ≤ bw := by simpa [regOf] using hg.reg
          obtain ⟨bw1, rfl⟩ : ∃ b1, bw = b1 + 1 := ⟨bw - 1, by omega⟩
          rw [pub_done k _ hp] at hstep
          cases hstep
          refine ⟨_, _, _, _, _, _, _, _, rfl,
            ⟨by omega, by simp, by simp, by simp [regOf],
              by have := hg.latch; simp [latchOf] at this ⊢; omega,
              hg.notExited, hg.held,
              by have := hg.count; simp [sentOf] at this ⊢; omega⟩,
            by simp [pcRank] at hL ⊢; omega, hwd,
            (by first | omega | (simp only [regOf] at hbw ⊢; omega)),
            (by first | omega | (simp only [latchOf, busyOf] at hlw ⊢; omega)),
            (by first | omega | (simp only [readOf] at hr ⊢; omega))⟩
      · rw [thr_finished k (by omega) _ _ _ _ _ _ _ _ (Or.inl rfl)] at hstep
        cases hstep
  | send i w1 =>
    cases i with
    | succ i => simp [send_other_thread] at hstep
    | zero =>
      by_cases hk : k < pairs.length
      · have hp := getElem_of_lt k hk
        by_cases hpc : pc = PC.pubSend ch
        · subst hpc
          by_cases hw : w1 = w
          · subst hw
            by_cases hst : st = WorkerState.idle
            · subst hst
              rw [pub_send h k _ hp] at hstep
              cases hstep
              have hc := hg.count
              simp only [sentOf, runOf, Nat.add_zero] at hc
              subst hc
              exact ⟨_, _, _, _, _, _, _, _, rfl,
                ⟨hg.kle, by simp, by omega, by simpa [regOf] using hg.reg,
                  by have := hg.latch; simp [latchOf, busyOf] at this ⊢; omega,
                  by simp, (by intro p1 hp1; cases hp1; exact hp), by simp [sentOf, runOf]⟩,
                by simp [pcRank, finOf] at hL ⊢; omega, hwd,
            (by first | omega | (simp only [regOf] at hbw ⊢; omega)),
            (by first | omega | (simp only [latchOf, busyOf] at hlw ⊢; omega)),
            (by first | omega | (simp only [readOf] at hr ⊢; omega))⟩
            · rw [send_busy k st hst _ _ _ _ _ (wlt h)] at hstep
              cases hstep
          · rw [send_other_worker h k st _ _ _ _ _ w1 hw] at hstep
            cases hstep
        · have hne : ∀ c, pc ≠ PC.pubSend c := by
            intro c hc
            rcases hg.pcOk with h1 | h1 | h1 | h1 | h1 | h1 | h1 | h1 <;>
              first
              | exact hpc h1
              | (rw [h1] at hc; cases hc)
          rw [send_wrong_pc k pc hne] at hstep
          cases hstep
      · rw [thr_finished k (by omega) _ _ _ _ _ _ _ _ (Or.inr ⟨w1, rfl⟩)] at hstep
        cases hstep
  | wrk w1 =>
    by_cases hw : w1 = w
    · subst hw
      cases st with
      | idle =>
        rw [wrk_idle h] at hstep
        cases hstep
      | exited => exact absurd rfl hg.notExited
      | running p =>
        have hj := hg.held p rfl
        rw [wrk_run h k pc p j bw lw r hj] at hstep
        cases hstep
        exact ⟨_, _, _, _, _, _, _, _, rfl,
          ⟨hg.kle, hg.pcOk, hg.atEnd, hg.reg, by simpa [busyOf] using hg.latch, by simp,
            (by intro p1 hp1; cases hp1),
            by have := hg.count; simp [runOf] at this ⊢; omega⟩,
          by simp [finOf] at hL ⊢; omega,
          (by rw [hwd]; simp [worldAfter, List.take_succ, hj, List.foldl_append, runListener]),
            (by omega),
            (by first | omega | (simp only [latchOf, busyOf] at hlw ⊢; omega)),
            (by omega)⟩
      | finishing o =>
        have hl : 1 ≤ lw := by have := hg.latch; simp [busyOf] at this; omega
        obtain ⟨lw1, rfl⟩ : ∃ b1, lw = b1 + 1 := ⟨lw - 1, by omega⟩
        rw [wrk_finish h] at hstep
        cases hstep
        exact ⟨_, _, _, _, _, _, _, _, rfl,
          ⟨hg.kle, hg.pcOk, hg.atEnd, hg.reg,
            by have := hg.latch; simp [busyOf] at this ⊢; omega, by simp,
            (by intro p1 hp1; cases hp1),
            by have := hg.count; simp [runOf] at this ⊢; omega⟩,
          by simp [finOf] at hL ⊢; omega, hwd,
            (by omega),
            (by first | omega | (simp only [latchOf, busyOf] at hlw ⊢; omega)),
            (by omega)⟩
    · rw [wrk_other h _ _ _ _ _ _ _ _ w1 hw] at hstep
      cases hstep

end


section
variable {rt0 : Runtime} {T : String} {ch w : Nat} {wk0 : Worker} {pairs : List ctxEventPair}

theorem pubInv_run (h : OneSubscriber rt0 T ch w wk0) (hT : ∀ p ∈ pairs, p.event.Topic = T)
    (sched : List Label) (m m1 : Machine) (L : Nat) (hinv : PubInv rt0 pairs ch w wk0 m L)
    (hrun : run m sched = some m1) : PubInv rt0 pairs ch w wk0 m1 (L + sched.length) := by
  induction sched generalizing m L with
  | nil =>
    simp only [run, Option.some.injEq] at hrun
    subst hrun
    simpa using hinv
  | cons l rest ih =>
    simp only [run] at hrun
    cases hs : step m l with
    | none => simp [hs] at hrun
    | some m2 =>
      simp only [hs] at hrun
      have := ih m2 (L + 1) (pubInv_step h hT m m2 L l hinv hs) hrun
      simpa [Nat.add_assoc, Nat.add_comm 1] using this

theorem pubState_at_rest (h : OneSubscriber rt0 T ch w wk0) (k : Nat) (pc : PC) (j : Nat)
    (world : Log) :
    (pubState rt0 pairs w wk0 k pc WorkerState.idle j rt0.b.inFlightBusProcWaitGroup
      rt0.b.inFlightListenerProcWaitGroup rt0.b.topicChannelsLock.readers world).rt =
      { rt0 with world := world, execs := rt0.execs ++ (pairs.take j).map (fun p => (w, p)) } := by
  have hset : rt0.workers.set w { wk0 with state := WorkerState.idle } = rt0.workers := by
    have : ({ wk0 with state := WorkerState.idle } : Worker) = wk0 := by
      rw [← h.wkIdle]
    rw [this]
    exact set_self _ _ _ h.worker
  have hlock : ({ readers := rt0.b.topicChannelsLock.readers, writer := false } : RWMutex) =
      rt0.b.topicChannelsLock := by
    rw [← h.noWriter]
  simp [pubState, hset, hlock]

theorem pubInv_init (h : OneSubscriber rt0 T ch w wk0) :
    PubInv rt0 pairs ch w wk0 (onePublisher rt0 pairs) 0 := by
  refine ⟨0, PC.entry, WorkerState.idle, 0, rt0.b.inFlightBusProcWaitGroup,
    rt0.b.inFlightListenerProcWaitGroup, rt0.b.topicChannelsLock.readers, rt0.world, ?_,
    ⟨by omega, by simp, by simp, by simp [regOf], by simp [latchOf, busyOf], by simp,
      (by intro p hp; cases hp), by simp [runOf, sentOf]⟩, by simp [finOf, pcRank], rfl,
    rfl, rfl, rfl⟩
  have hrt := @pubState_at_rest rt0 T ch w wk0 pairs h 0 PC.entry 0 rt0.world
  simp only [List.take_zero, List.map_nil, List.append_nil] at hrt
  simp only [onePublisher]
  rw [show (pubState rt0 pairs w wk0 0 PC.entry WorkerState.idle 0 rt0.b.inFlightBusProcWaitGroup
      rt0.b.inFlightListenerProcWaitGroup rt0.b.topicChannelsLock.readers rt0.world) =
      { rt := (pubState rt0 pairs w wk0 0 PC.entry WorkerState.idle 0
          rt0.b.inFlightBusProcWaitGroup rt0.b.inFlightListenerProcWaitGroup
          rt0.b.topicChannelsLock.readers rt0.world).rt
        threads := [{ prog := pairs.map pubCall, pc := PC.entry, results := [] }]
        crashed := none } from by simp [pubState], hrt]

theorem pubInv_crashed (m : Machine) (L : Nat) (hinv : PubInv rt0 pairs ch w wk0 m L) :
    m.crashed = none := by
  obtain ⟨k, pc, st, j, bw, lw, r, world, rfl, _, _⟩ := hinv
  rfl

theorem good_bounds {k : Nat} {pc : PC} {st : WorkerState} {j bw lw : Nat}
    (hg : Good pairs ch k pc st j bw lw) :
    8 * k + pcRank pc + 2 * j ≤ 10 * pairs.length + finOf st ∧
    (8 * k + pcRank pc + 2 * j = 10 * pairs.length + finOf st →
      k = pairs.length ∧ pc = PC.entry ∧ st = WorkerState.idle ∧ j = pairs.length) := by
  have hk := hg.kle
  have hc := hg.count
  have he := hg.atEnd
  have hne := hg.notExited
  rcases hg.pcOk with rfl | rfl | rfl | rfl | rfl | rfl | rfl | rfl <;>
    cases st <;> simp [pcRank, sentOf, runOf, finOf] at hc he hne ⊢ <;> omega

theorem pubInv_final (m : Machine) (hinv : PubInv rt0 pairs ch w wk0 m (10 * pairs.length)) :
    m = pubState rt0 pairs w wk0 pairs.length PC.entry WorkerState.idle pairs.length
      rt0.b.inFlightBusProcWaitGroup rt0.b.inFlightListenerProcWaitGroup
      rt0.b.topicChannelsLock.readers (worldAfter rt0 pairs wk0 pairs.length) := by
  obtain ⟨k, pc, st, j, bw, lw, r, world, rfl, hg, hL, hwd, hbw, hlw, hr⟩ := hinv
  obtain ⟨rfl, rfl, rfl, rfl⟩ := (good_bounds hg).2 (by omega)
  subst hwd hbw hlw hr
  rfl

theorem final_terminal (h : OneSubscriber rt0 T ch w wk0) (bw lw r : Nat) (world : Log) :
    (pubState rt0 pairs w wk0 pairs.length PC.entry WorkerState.idle pairs.length bw lw r
      world).terminal := by
  intro l
  cases l with
  | thr i =>
    cases i with
    | zero => exact thr_finished _ (Nat.le_refl _) _ _ _ _ _ _ _ _ (Or.inl rfl)
    | succ i => exact thr_other _ _ _ _ _ _ _ _ _
  | send i w1 =>
    cases i with
    | zero => exact thr_finished _ (Nat.le_refl _) _ _ _ _ _ _ _ _ (Or.inr ⟨w1, rfl⟩)
    | succ i => exact send_other_thread _ _ _ _ _ _ _ _ _ _
  | wrk w1 =>
    by_cases hw : w1 = w
    · subst hw
      exact wrk_idle h _ _ _ _ _ _ _
    · exact wrk_other h _ _ _ _ _ _ _ _ w1 hw

theorem pubInv_progress (h : OneSubscriber rt0 T ch w wk0) (hT : ∀ p ∈ pairs, p.event.Topic = T)
    (m : Machine) (L : Nat) (hinv : PubInv rt0 pairs ch w wk0 m L) (hL : L < 10 * pairs.length) :
    ∃ l m1, step m l = some m1 := by
  obtain ⟨k, pc, st, j, bw, lw, r, world, rfl, hg, hLe, _, _, _, _⟩ := hinv
  have hTk : ∀ p, pairs[k]? = some p → p.event.Topic = T := fun p hp =>
    hT p (List.getElem?_mem hp)
  -- a worker that holds a pair can always move
  cases st with
  | exited => exact absurd rfl hg.notExited
  | running p => exact ⟨_, _, wrk_run h k pc p j bw lw r (hg.held p rfl) world⟩
  | finishing o =>
    have hl : 1 ≤ lw := by have := hg.latch; simp [busyOf] at this; omega
    obtain ⟨lw1, rfl⟩ : ∃ b1, lw = b1 + 1 := ⟨lw - 1, by omega⟩
    exact ⟨_, _, wrk_finish h k pc o j bw lw1 r world⟩
  | idle =>
    have hk : k < pairs.length := by
      by_contra hk
      have hk1 : k = pairs.length := by have := hg.kle; omega
      have hpc := hg.atEnd hk1
      have hc := hg.count
      subst hpc
      simp [sentOf, runOf, finOf, pcRank] at hc hLe
      omega
    have hp := getElem_of_lt k hk
    rcases hg.pcOk with rfl | rfl | rfl | rfl | rfl | rfl | rfl | rfl
    · exact ⟨_, _, pub_entry h k _ hp _ _ _ _ _ _⟩
    · exact ⟨_, _, pub_add k _ hp _ _ _ _ _ _⟩
    · exact ⟨_, _, pub_rlock k _ hp _ _ _ _ _ _⟩
    · exact ⟨_, _, pub_lookup h k _ hp (hTk _ hp) _ _ _ _ _ _⟩
    · exact ⟨_, _, pub_addListeners h k _ hp (hTk _ hp) _ _ _ _ _ _⟩
    · exact ⟨_, _, pub_runlock k _ hp _ _ _ _ _ _⟩
    · exact ⟨_, _, pub_send h k _ hp _ _ _ _ _⟩
    · have hb : 1 ≤ bw := by simpa [regOf] using hg.reg
      obtain ⟨bw1, rfl⟩ : ∃ b1, bw = b1 + 1 := ⟨bw - 1, by omega⟩
      exact ⟨_, _, pub_done k _ hp _ _ _ _ _ _⟩

theorem pubInv_range (h : OneSubscriber rt0 T ch w wk0) (m : Machine) (L : Nat)
    (hinv : PubInv rt0 pairs ch w wk0 m L) :
    m.rt.b.inFlightBusProcWaitGroup ≤ maxWaitGroup ∧
      m.rt.b.inFlightListenerProcWaitGroup ≤ maxWaitGroup := by
  obtain ⟨k, pc, st, j, bw, lw, r, world, rfl, hg, _, _, hbw, hlw, _⟩ := hinv
  have h1 := h.busRoom
  have h2 := h.latchRoom
  have h3 : regOf pc ≤ 1 := by cases pc <;> simp [regOf]
  have h4 : latchOf pc ≤ 1 := by cases pc <;> simp [latchOf]
  have h5 : busyOf st ≤ 1 := by cases st <;> simp [busyOf]
  simp only [pubState]
  omega

theorem pubInv_le (m : Machine) (L : Nat) (hinv : PubInv rt0 pairs ch w wk0 m L) :
    L ≤ 10 * pairs.length := by
  obtain ⟨k, pc, st, j, bw, lw, r, world, rfl, hg, hLe, _, _, _, _⟩ := hinv
  have := (good_bounds hg).1
  omega

theorem pubInv_complete (h : OneSubscriber rt0 T ch w wk0) (hT : ∀ p ∈ pairs, p.event.Topic = T)
    (n : Nat) (m : Machine) (L : Nat) (hinv : PubInv rt0 pairs ch w wk0 m L)
    (hn : L + n = 10 * pairs.length) :
    ∃ sched m1, run m sched = some m1 ∧ m1.terminal := by
  induction n generalizing m L with
  | zero =>
    have hL : L = 10 * pairs.length := by omega
    subst hL
    have hm := pubInv_final m hinv
    subst hm
    exact ⟨[], _, rfl, final_terminal h _ _ _ _⟩
  | succ n ih =>
    obtain ⟨l, m2, hs⟩ := pubInv_progress h hT m L hinv (by omega)
    obtain ⟨sched, m1, hr, ht⟩ := ih m2 (L + 1) (pubInv_step h hT m m2 L l hinv hs) (by omega)
    exact ⟨l :: sched, m1, by simp [run, hs, hr], ht⟩

theorem pairsOf_topic (T : String) (msgs : List (Context × List (Fin 256))) :
    ∀ p ∈ pairsOf T msgs, p.event.Topic = T := by
  intro p hp
  simp only [pairsOf, List.mem_map] at hp
  obtain ⟨cm, _, rfl⟩ := hp
  rfl

end

/-- C3: on a bus with exactly one subscriber on topic T (worker `w`), let one caller publish,
one after the other, the events `NewEvent(WithTopic(T), WithMessage(payload))` for a list of
N contexts and payloads.  Each such event has topic T and the payload given.  Along every
schedule the process does not crash, both in-flight counters stay within `maxWaitGroup` and
at most 10 N steps are taken; the process can move no further exactly when it has taken
10 N steps, and then all N calls of `Publish` have returned nil and the runtime is the one
before the calls (bus, both in-flight counters, lock, channels and workers as they were)
except for the world and the history.  The world is the one left by N calls of the listener of
`w`, one after the other, the i-th call receiving the context of the i-th `Publish` with the
listener timeout and the event with topic T and the i-th payload, byte for byte; the
history has grown by these N runs of worker `w`.  Such a complete schedule exists. -/
theorem sequential_publishes_delivered (rt0 : Runtime) (T : String) (ch w : Nat) (wk0 : Worker)
    (msgs : List (Context × List (Fin 256))) (h : OneSubscriber rt0 T ch w wk0) :
    (∀ cm ∈ msgs, (NewEvent [WithTopic T, WithMessage cm.2]).Topic = T ∧
      (NewEvent [WithTopic T, WithMessage cm.2]).Message = cm.2) ∧
    (∀ sched m1, run (onePublisher rt0 (pairsOf T msgs)) sched = some m1 →
      sched.length ≤ 10 * msgs.length ∧ m1.crashed = none ∧
      m1.rt.b.inFlightBusProcWaitGroup ≤ maxWaitGroup ∧
      m1.rt.b.inFlightListenerProcWaitGroup ≤ maxWaitGroup ∧
      (m1.terminal ↔ sched.length = 10 * msgs.length) ∧
      (m1.terminal →
        m1.threads = [{ prog := [], pc := PC.entry, results := List.replicate msgs.length none }] ∧
        m1.rt =
          { rt0 with
            execs := rt0.execs ++ (pairsOf T msgs).map (fun p => (w, p))
            world := msgs.foldl
              (fun world cm =>
                (wk0.listenerFunc
                  (WithTimeout cm.1
                    (CoalesceOrEmpty rt0.b.config.ListenerTimeout _listenerExecTimeout))
                  { topic := T, msg := cm.2 } world).1)
              rt0.world })) ∧
    (∃ sched m1, run (onePublisher rt0 (pairsOf T msgs)) sched = some m1 ∧ m1.terminal) := by
  have hT := pairsOf_topic T msgs
  have hlen : (pairsOf T msgs).length = msgs.length := by simp [pairsOf]
  refine ⟨fun cm _ => ⟨rfl, rfl⟩, ?_, ?_⟩
  · intro sched m1 hrun
    have hinv := pubInv_run h hT sched _ m1 0 (pubInv_init h) hrun
    simp only [Nat.zero_add] at hinv
    have hle := pubInv_le m1 _ hinv
    rw [hlen] at hle
    obtain ⟨hb1, hb2⟩ := pubInv_range h m1 _ hinv
    have hterm : m1.terminal → sched.length = 10 * msgs.length := by
      intro ht
      by_contra hne
      obtain ⟨l, m2, hs⟩ := pubInv_progress h hT m1 _ hinv (by rw [hlen]; omega)
      rw [ht l] at hs
      cases hs
    have hfin : sched.length = 10 * msgs.length →
        m1 = pubState rt0 (pairsOf T msgs) w wk0 (pairsOf T msgs).length PC.entry
          WorkerState.idle (pairsOf T msgs).length rt0.b.inFlightBusProcWaitGroup
          rt0.b.inFlightListenerProcWaitGroup rt0.b.topicChannelsLock.readers
          (worldAfter rt0 (pairsOf T msgs) wk0 (pairsOf T msgs).length) := by
      intro he
      apply pubInv_final
      rw [hlen, ← he]
      exact hinv
    refine ⟨hle, pubInv_crashed m1 _ hinv, hb1, hb2, ⟨hterm, ?_⟩, ?_⟩
    · intro he
      rw [hfin he]
      exact final_terminal h _ _ _ _
    · intro ht
      have hm := hfin (hterm ht)
      have htake : List.take msgs.length (pairsOf T msgs) = pairsOf T msgs := by
        rw [← hlen, List.take_length]
      have hworld : worldAfter rt0 (pairsOf T msgs) wk0 msgs.length =
          msgs.foldl
            (fun world cm =>
              (wk0.listenerFunc
                (WithTimeout cm.1
                  (CoalesceOrEmpty rt0.b.config.ListenerTimeout _listenerExecTimeout))
                { topic := T, msg := cm.2 } world).1)
            rt0.world := by
        rw [worldAfter, htake, pairsOf, List.foldl_map]
        rfl
      refine ⟨?_, ?_⟩
      · rw [hm]
        simp [pubState, hlen]
      · rw [hm, pubState_at_rest h, hlen, hworld, htake]
  · exact pubInv_complete h hT (10 * (pairsOf T msgs).length) _ 0 (pubInv_init h) (by simp)

theorem recordingRuntime_ok :
    OneSubscriber recordingRuntime "t" 0 0 recordingWorker := by
  constructor
  · rfl
  · rfl
  · decide
  · decide
  · rfl
  · rfl
  · rfl
  · rfl
  · intro w1 wk1 hne hw
    cases w1 with
    | zero => exact absurd rfl hne
    | succ n => simp [recordingRuntime, afterSubscribe, newRuntime, NewBusChannel, mapGet] at hw
  · decide
  · decide

theorem sequential_publishes_delivered_witness :
    OneSubscriber recordingRuntime "t" 0 0 recordingWorker ∧
    Subscribe (newRuntime [] []) Background "t" recordingListener [] =
      some (recordingRuntime, CallResult.returned none) ∧
    ∃ sched m1,
      run (onePublisher recordingRuntime
        (pairsOf "t" [(Background, [104, 105]), (WithValue Background "k" "v", [33])])) sched =
          some m1 ∧
      m1.terminal ∧
      m1.threads = [{ prog := [], pc := PC.entry, results := [none, none] }] ∧
      m1.rt.world = ["t", "hi", "t", "!"] ∧
      m1.rt.execs =
        [(0, { ctx := Background, event := { topic := "t", msg := [104, 105] } }),
         (0, { ctx := WithValue Background "k" "v", event := { topic := "t", msg := [33] } })] := by
  refine ⟨recordingRuntime_ok, Subscribe_eq _ _ _ _ _ rfl rfl rfl, ?_⟩
  obtain ⟨_, hall, sched, m1, hrun, hterm⟩ :=
    sequential_publishes_delivered recordingRuntime "t" 0 0 recordingWorker
      [(Background, [104, 105]), (WithValue Background "k" "v", [33])] recordingRuntime_ok
  obtain ⟨h1, h2⟩ := (hall sched m1 hrun).2.2.2.2.2 hterm
  refine ⟨sched, m1, hrun, hterm, h1, ?_, ?_⟩
  · rw [h2]
    decide
  · rw [h2]
    rfl

/-! ### The two defects of the drain barrier -/

theorem stuck_at_listener_wait (m : Machine)
    (hpc : ∀ t ∈ m.threads, t.pc = PC.sdWaitListeners)
    (hlw : m.rt.b.inFlightListenerProcWaitGroup ≠ 0)
    (hidle : ∀ wk ∈ m.rt.workers, wk.state = WorkerState.idle)
    (hch : ∀ b ∈ m.rt.chans, b = false) : m.terminal := by
  intro l
  unfold step
  cases m.crashed with
  | some p => rfl
  | none =>
    cases l with
    | thr i =>
      simp only
      cases ht : m.threads[i]? with
      | none => rfl
      | some t =>
        have hp := hpc t (List.getElem?_mem ht)
        simp only
        cases hprog : t.prog with
        | nil => rfl
        | cons c rest =>
          simp only [hp]
          cases c <;> simp [stepCall, hlw]
    | send i w =>
      simp only
      cases ht : m.threads[i]? with
      | none => rfl
      | some t =>
        have hp := hpc t (List.getElem?_mem ht)
        simp only
        cases hprog : t.prog with
        | nil => rfl
        | cons c rest =>
          simp only [hp]
          cases c <;> simp [handOff]
    | wrk w =>
      simp only [stepWorker]
      cases hw : m.rt.workers[w]? with
      | none => rfl
      | some wk =>
        have hi := hidle wk (List.getElem?_mem hw)
        have hc : m.rt.chans[wk.topicChannel]? ≠ some true := by
          intro hc
          have := hch true (List.getElem?_mem hc)
          cases this
        simp [hi, hc]

theorem map_eq_singleton_mem {α β : Type} (f : α → β) (l : List α) (b : β)
    (h : l.map f = [b]) : ∀ a ∈ l, f a = b := by
  intro a ha
  have : f a ∈ l.map f := List.mem_map_of_mem f ha
  rw [h] at this
  simpa using this

/-- C6 (failing input): on a fresh bus, after two `Subscribe` calls for the same topic and one
`Publish` on it have all returned nil and the listener has run to its end, the registration
counter is 0 but the dispatch counter is 1 (`Publish` added the worker count 2, one worker ran
and called `Done` once); a `Shutdown` with a live context then sets the closed flag and stops
at its second wait, where no goroutine can move any more: it never returns, and the channel
stays open and routed. -/
theorem shutdown_hangs_with_two_subscribers :
    ∃ m, run twoSubscribers twoSubscribersSched = some m ∧
      observe m =
        { isClosed := true, inFlightBusProc := 0, inFlightListenerProc := 1,
          topicChannels := [("t", 0)], chans := [false],
          workers := [WorkerState.idle, WorkerState.idle], runs := 1,
          callers := [([none, none, none], PC.sdWaitListeners)], crashed := none } ∧
      m.terminal := by
  have hobs : (run twoSubscribers twoSubscribersSched).map observe =
      some { isClosed := true, inFlightBusProc := 0, inFlightListenerProc := 1,
             topicChannels := [("t", 0)], chans := [false],
             workers := [WorkerState.idle, WorkerState.idle], runs := 1,
             callers := [([none, none, none], PC.sdWaitListeners)], crashed := none } := by
    decide!
  cases hr : run twoSubscribers twoSubscribersSched with
  | none =>
    rw [hr] at hobs
    cases hobs
  | some m =>
    rw [hr] at hobs
    simp only [Option.map_some', Option.some.injEq] at hobs
    refine ⟨m, rfl, hobs, ?_⟩
    have hcallers := congrArg Obs.callers hobs
    have hworkers := congrArg Obs.workers hobs
    have hchans := congrArg Obs.chans hobs
    have hlw := congrArg Obs.inFlightListenerProc hobs
    simp only [observe] at hcallers hworkers hchans hlw
    apply stuck_at_listener_wait
    · intro t ht
      have := map_eq_singleton_mem _ _ _ hcallers t ht
      simpa using congrArg Prod.snd this
    · rw [hlw]
      decide
    · intro wk hwk
      have : wk.state ∈ m.rt.workers.map (fun wk => wk.state) := List.mem_map_of_mem _ hwk
      rw [hworkers] at this
      simpa using this
    · intro b hb
      rw [hchans] at hb
      simpa using hb

/-- C9 (failing input): a caller subscribes to "t" and then calls `Publish`, which passes its
closed check; then `Shutdown`, called with a live context by another goroutine, sets the
flag and passes both waits, the registration counter being still 0 although `Publish` is
admitted and has not returned.  `Publish` goes on to its send, `Shutdown` closes and removes
the channel, and the send panics on the closed channel.  Likewise a `Subscribe` that has
passed its closed check registers a topic, an open channel and a worker after `Shutdown` has
returned nil. -/
theorem admitted_call_not_waited_for :
    (run racing racingAdmitted).map observe =
      some { isClosed := true, inFlightBusProc := 0, inFlightListenerProc := 0,
             topicChannels := [("t", 0)], chans := [false],
             workers := [WorkerState.idle], runs := 0,
             callers := [([none], PC.pubAdd), ([], PC.sdLoop)], crashed := none } ∧
    (run racing (racingAdmitted ++ racingRest)).map observe =
      some { isClosed := true, inFlightBusProc := 0, inFlightListenerProc := 1,
             topicChannels := [], chans := [true],
             workers := [WorkerState.idle], runs := 0,
             callers := [([none], PC.pubSend 0), ([], PC.sdLoop)],
             crashed := some PanicVal.sendOnClosedChannel } ∧
    (run racingSubscribe racingSubscribeSched).map observe =
      some { isClosed := true, inFlightBusProc := 0, inFlightListenerProc := 0,
             topicChannels := [("t", 0)], chans := [false],
             workers := [WorkerState.idle], runs := 0,
             callers := [([none], PC.entry), ([none], PC.entry)], crashed := none } := by
  refine ⟨by decide!, by decide!, by decide!⟩


/-! ### Every pair in flight is counted -/

theorem stepCall_latch (rt rt1 : Runtime) (c : Call) (pc pc1 : PC)
    (h : (stepCall rt c pc).move = some (rt1, pc1))
    (hnum : ∀ ctx ev ch, c = Call.Publish ctx ev → pc = PC.pubAddListeners ch →
      1 ≤ workerNum rt ev.Topic) :
    rt.b.inFlightListenerProcWaitGroup + latchOf pc1 ≤
      rt1.b.inFlightListenerProcWaitGroup + latchOf pc ∧
    (rt1.workers.map (fun wk => busyOf wk.state)).sum =
      (rt.workers.map (fun wk => busyOf wk.state)).sum := by
  cases c <;> cases pc <;> simp only [stepCall, Runtime.withBus] at h <;>
    (repeat' split at h) <;>
    simp only [StepOut.move, Option.some.injEq, Prod.mk.injEq, reduceCtorEq, and_false,
      false_and] at h <;>
    (try (obtain ⟨h1, h2⟩ := h; subst h1 h2)) <;>
    simp [latchOf, busyOf, workerNum] at hnum ⊢
  all_goals exact hnum

theorem mapGet_mapDelete {α : Type} (m : List (String × α)) (k k1 : String)
    (h : mapGet (mapDelete m k) k1 ≠ none) : mapGet m k1 ≠ none := by
  induction m with
  | nil => simp [mapDelete, mapGet] at h
  | cons p rest ih =>
    obtain ⟨k2, v2⟩ := p
    by_cases h2 : k2 = k1
    · simp [mapGet, h2]
    · simp only [mapGet, h2, if_false]
      apply ih
      by_cases h3 : k2 = k
      · simpa [mapDelete, h3] using h
      · simpa [mapDelete, h3, mapGet, h2] using h

theorem stepCall_readers (rt rt1 : Runtime) (c : Call) (pc pc1 : PC)
    (h : (stepCall rt c pc).move = some (rt1, pc1))
    (hpre : readOf pc ≤ rt.b.topicChannelsLock.readers) :
    rt.b.topicChannelsLock.readers + readOf pc1 ≤ rt1.b.topicChannelsLock.readers + readOf pc := by
  cases c <;> cases pc <;> simp only [stepCall, Runtime.withBus] at h <;>
    (repeat' split at h) <;>
    simp only [StepOut.move, Option.some.injEq, Prod.mk.injEq, reduceCtorEq, and_false,
      false_and] at h <;>
    (try (obtain ⟨h1, h2⟩ := h; subst h1 h2)) <;>
    simp [readOf] at hpre ⊢ <;> omega

theorem stepCall_writer (rt rt1 : Runtime) (c : Call) (pc pc1 : PC)
    (h : (stepCall rt c pc).move = some (rt1, pc1))
    (hpre : writeOf pc = 1 → rt.b.topicChannelsLock.writer = true)
    (hex : rt.b.topicChannelsLock.writer = true → rt.b.topicChannelsLock.readers = 0) :
    writeOf pc1 + (if rt.b.topicChannelsLock.writer = true then 1 else 0) =
      writeOf pc + (if rt1.b.topicChannelsLock.writer = true then 1 else 0) ∧
    (rt1.b.topicChannelsLock.writer = true → rt1.b.topicChannelsLock.readers = 0) := by
  cases c <;> cases pc <;> simp only [stepCall, Runtime.withBus] at h <;>
    (repeat' split at h) <;>
    simp only [StepOut.move, Option.some.injEq, Prod.mk.injEq, reduceCtorEq, and_false,
      false_and] at h <;>
    (try (obtain ⟨h1, h2⟩ := h; subst h1 h2)) <;>
    simp_all [writeOf]

theorem stepCall_workerNum (rt rt1 : Runtime) (c : Call) (pc pc1 : PC)
    (h : (stepCall rt c pc).move = some (rt1, pc1)) (T : String)
    (hT : 1 ≤ workerNum rt T) : 1 ≤ workerNum rt1 T := by
  cases c <;> cases pc <;> simp only [stepCall, Runtime.withBus] at h <;>
    (repeat' split at h) <;>
    simp only [StepOut.move, Option.some.injEq, Prod.mk.injEq, reduceCtorEq, and_false,
      false_and] at h <;>
    (try (obtain ⟨h1, h2⟩ := h; subst h1 h2)) <;>
    simp only [workerNum, mapGet_mapSet] at hT ⊢ <;>
    (try exact hT) <;>
    (split <;> simp_all)

theorem stepCall_storeNum (rt rt1 : Runtime) (ctx : Context) (T : String) (f : ListenerFunc)
    (ics : List ListenerInterceptorFunc) (ch : Nat) (pc1 : PC)
    (h : (stepCall rt (Call.Subscribe ctx T f ics) (PC.subStoreNum ch)).move = some (rt1, pc1)) :
    1 ≤ workerNum rt1 T := by
  simp only [stepCall, Runtime.withBus, StepOut.move, Option.some.injEq, Prod.mk.injEq] at h
  obtain ⟨h1, _⟩ := h
  subst h1
  simp [workerNum, mapGet_mapSet]

theorem stepCall_routes (rt rt1 : Runtime) (c : Call) (pc pc1 : PC)
    (h : (stepCall rt c pc).move = some (rt1, pc1)) (T : String)
    (hT : mapGet rt1.b.topicChannels T ≠ none) :
    mapGet rt.b.topicChannels T ≠ none ∨
      ∃ ctx f ics ch, c = Call.Subscribe ctx T f ics ∧ pc1 = PC.subStoreNum ch := by
  cases c <;> cases pc <;> simp only [stepCall, Runtime.withBus] at h <;>
    (repeat' split at h) <;>
    simp only [StepOut.move, Option.some.injEq, Prod.mk.injEq, reduceCtorEq, and_false,
      false_and] at h <;>
    (try (obtain ⟨h1, h2⟩ := h; subst h1 h2)) <;>
    (try (exact Or.inl hT))
  · -- subStoreChan
    rename_i ctx topic f ics ch
    simp only [mapGet_mapSet] at hT
    by_cases ht : topic = T
    · subst ht
      exact Or.inr ⟨ctx, f, ics, ch, rfl, rfl⟩
    · simp only [ht, if_false] at hT
      exact Or.inl hT
  · -- sdDelete
    exact Or.inl (mapGet_mapDelete _ _ _ hT)

theorem stepCall_arrive_addListeners (rt rt1 : Runtime) (c : Call) (pc : PC) (ch : Nat)
    (h : (stepCall rt c pc).move = some (rt1, PC.pubAddListeners ch)) :
    rt1 = rt ∧ readOf pc = 1 ∧ ∃ ctx ev, c = Call.Publish ctx ev ∧
      mapGet rt.b.topicChannels ev.Topic = some ch := by
  cases c <;> cases pc <;> simp only [stepCall, Runtime.withBus] at h <;>
    (repeat' split at h) <;>
    simp only [StepOut.move, Option.some.injEq, Prod.mk.injEq, reduceCtorEq, and_false,
      false_and, PC.pubAddListeners.injEq] at h
  obtain ⟨h1, h2⟩ := h
  subst h1 h2
  exact ⟨rfl, rfl, _, _, rfl, by assumption⟩

theorem stepCall_arrive_storeNum (rt rt1 : Runtime) (c : Call) (pc : PC) (ch : Nat)
    (h : (stepCall rt c pc).move = some (rt1, PC.subStoreNum ch)) :
    ∃ rt2, stepCall rt c pc = StepOut.goto rt2 (PC.subStoreNum ch) := by
  cases hs : stepCall rt c pc with
  | blocked => simp [hs, StepOut.move] at h
  | goto rt2 pc2 =>
    simp only [hs, StepOut.move, Option.some.injEq, Prod.mk.injEq] at h
    exact ⟨rt2, by rw [h.2]⟩
  | ret rt2 r => simp [hs, StepOut.move] at h
  | panic rt2 p => simp [hs, StepOut.move] at h

theorem sum_map_set {α : Type} (l : List α) (i : Nat) (a b : α) (f : α → Nat)
    (h : l[i]? = some a) : ((l.set i b).map f).sum + f a = (l.map f).sum + f b := by
  induction l generalizing i with
  | nil => simp at h
  | cons x xs ih =>
    cases i with
    | zero =>
      simp only [List.getElem?_cons_zero, Option.some.injEq] at h
      subst h
      simp only [List.set_cons_zero, List.map_cons, List.sum_cons]
      omega
    | succ i =>
      simp only [List.getElem?_cons_succ] at h
      have := ih i h
      simp only [List.set_cons_succ, List.map_cons, List.sum_cons]
      omega

theorem le_sum_map {α : Type} (l : List α) (i : Nat) (a : α) (f : α → Nat)
    (h : l[i]? = some a) : f a ≤ (l.map f).sum := by
  induction l generalizing i with
  | nil => simp at h
  | cons x xs ih =>
    cases i with
    | zero =>
      simp only [List.getElem?_cons_zero, Option.some.injEq] at h
      subst h
      simp
    | succ i =>
      simp only [List.getElem?_cons_succ] at h
      have := ih i h
      simp only [List.map_cons, List.sum_cons]
      omega

theorem lt_of_getElem? {α : Type} (l : List α) (i : Nat) (a : α) (h : l[i]? = some a) :
    i < l.length := (List.getElem?_eq_some.1 h).1

theorem Sound_thr (m : Machine) (i : Nat) (t t1 : Thread) (c : Call) (rest : List Call)
    (rt1 : Runtime) (pc1 : PC) (cr : Option PanicVal) (hs : Sound m)
    (ht : m.threads[i]? = some t) (hprog : t.prog = c :: rest)
    (hmove : (stepCall m.rt c t.pc).move = some (rt1, pc1)) (hpc : t1.pc = pc1)
    (hkeep : pc1 ≠ PC.entry → t1.prog = t.prog) :
    Sound { rt := rt1, threads := m.threads.set i t1, crashed := cr } := by
  have hi := lt_of_getElem? _ _ _ ht
  have hnum : ∀ ctx ev ch, c = Call.Publish ctx ev → t.pc = PC.pubAddListeners ch →
      1 ≤ workerNum m.rt ev.Topic := by
    intro ctx ev ch hc hp
    exact hs.counted i t ctx ev rest ch ht (by rw [hprog, hc]) hp
  have hread : readOf t.pc ≤ m.rt.b.topicChannelsLock.readers :=
    Nat.le_trans (le_sum_map _ i t (fun t => readOf t.pc) ht) hs.read
  have hwle : writeOf t.pc ≤ sumWrite m := le_sum_map _ i t (fun t => writeOf t.pc) ht
  have hwrite : writeOf t.pc = 1 → m.rt.b.topicChannelsLock.writer = true := by
    intro h1
    have := hs.write
    by_contra hw
    simp only [hw, if_false] at this
    omega
  obtain ⟨hl1, hl2⟩ := stepCall_latch _ _ _ _ _ hmove hnum
  have hr1 := stepCall_readers _ _ _ _ _ hmove hread
  obtain ⟨hw1, hw2⟩ := stepCall_writer _ _ _ _ _ hmove hwrite hs.excl
  have sl := sum_map_set m.threads i t t1 (fun t => latchOf t.pc) ht
  have sr := sum_map_set m.threads i t t1 (fun t => readOf t.pc) ht
  have sw := sum_map_set m.threads i t t1 (fun t => writeOf t.pc) ht
  simp only [hpc] at sl sr sw
  constructor
  · have := hs.latch
    simp only [sumLatch, sumBusy] at this ⊢
    simp only [hl2]
    omega
  · have := hs.read
    simp only [sumRead] at this ⊢
    omega
  · have := hs.write
    simp only [sumWrite] at this hwle ⊢
    omega
  · exact hw2
  · intro T hT
    rcases stepCall_routes _ _ _ _ _ hmove T hT with hold | ⟨ctx, f, ics, ch, hc, hp⟩
    · rcases hs.routed T hold with hn | ⟨k, tk, ctx, f, ics, rest1, ch, hk, hkp, hkc⟩
      · exact Or.inl (stepCall_workerNum _ _ _ _ _ hmove T hn)
      · by_cases hki : k = i
        · subst hki
          rw [ht] at hk
          cases hk
          rw [hprog] at hkp
          cases hkp
          rw [hkc] at hmove
          exact Or.inl (stepCall_storeNum _ _ _ _ _ _ _ _ hmove)
        · right
          refine ⟨k, tk, ctx, f, ics, rest1, ch, ?_, hkp, hkc⟩
          simp only [List.getElem?_set_ne (Ne.symm hki)]
          exact hk
    · right
      refine ⟨i, t1, ctx, f, ics, rest, ch, ?_, ?_, by rw [hpc, hp]⟩
      · simp only [List.getElem?_set_self hi]
      · rw [hkeep (by rw [hp]; simp), hprog, hc]
  · intro k tk ctx ev rest1 ch hk hkp hkc
    by_cases hki : k = i
    · subst hki
      simp only [List.getElem?_set_self hi, Option.some.injEq] at hk
      subst hk
      rw [hpc] at hkc
      subst hkc
      obtain ⟨hrt, hro, ctx1, ev1, hc1, hg⟩ := stepCall_arrive_addListeners _ _ _ _ _ hmove
      subst hrt
      rw [hkeep (by simp), hprog, hc1] at hkp
      cases hkp
      rcases hs.routed ev.Topic (by rw [hg]; simp) with hn | ⟨k2, t2, _, _, _, _, ch2, hk2, _, hk2c⟩
      · exact hn
      · exfalso
        have h2 : writeOf t2.pc ≤ sumWrite m := le_sum_map _ k2 t2 (fun t => writeOf t.pc) hk2
        rw [hk2c] at h2
        simp only [writeOf] at h2
        have hwr : m.rt.b.topicChannelsLock.writer = true := by
          have := hs.write
          by_contra hw
          simp only [hw, if_false] at this
          omega
        have := hs.excl hwr
        omega
    · simp only [List.getElem?_set_ne (Ne.symm hki)] at hk
      exact stepCall_workerNum _ _ _ _ _ hmove _ (hs.counted k tk ctx ev rest1 ch hk hkp hkc)

theorem stepCall_panic_keeps (rt rt1 : Runtime) (c : Call) (pc : PC) (p : PanicVal)
    (h : stepCall rt c pc = StepOut.panic rt1 p) :
    rt1.b.inFlightListenerProcWaitGroup = rt.b.inFlightListenerProcWaitGroup ∧
    rt1.b.topicChannelsLock = rt.b.topicChannelsLock ∧
    rt1.b.topicChannels = rt.b.topicChannels ∧
    rt1.b.topicListenerWorkerNum = rt.b.topicListenerWorkerNum ∧
    rt1.workers = rt.workers := by
  cases c <;> cases pc <;> simp only [stepCall, Runtime.withBus] at h <;>
    (repeat' split at h) <;>
    simp only [StepOut.panic.injEq, reduceCtorEq, and_false, false_and] at h <;>
    (obtain ⟨h1, _⟩ := h; subst h1; simp)

theorem Sound_congr (m m1 : Machine) (hs : Sound m) (ht : m1.threads = m.threads)
    (h1 : m1.rt.b.inFlightListenerProcWaitGroup = m.rt.b.inFlightListenerProcWaitGroup)
    (h2 : m1.rt.b.topicChannelsLock = m.rt.b.topicChannelsLock)
    (h3 : m1.rt.b.topicChannels = m.rt.b.topicChannels)
    (h4 : m1.rt.b.topicListenerWorkerNum = m.rt.b.topicListenerWorkerNum)
    (h5 : sumBusy m1.rt = sumBusy m.rt) : Sound m1 := by
  constructor
  · simpa only [sumLatch, ht, h1, h5] using hs.latch
  · simpa only [sumRead, ht, h2] using hs.read
  · simpa only [sumWrite, ht, h2] using hs.write
  · simpa only [h2] using hs.excl
  · simpa only [workerNum, ht, h3, h4] using hs.routed
  · simpa only [workerNum, ht, h4] using hs.counted

theorem busyOf_idle : busyOf WorkerState.idle = 0 := rfl

theorem busyOf_exited : busyOf WorkerState.exited = 0 := rfl

theorem busyOf_running (pair : ctxEventPair) : busyOf (WorkerState.running pair) = 1 := rfl

theorem busyOf_finishing (o : Outcome) : busyOf (WorkerState.finishing o) = 1 := rfl

theorem handOff_spec (rt rt1 : Runtime) (c : Call) (pc : PC) (w : Nat)
    (h : handOff rt c pc w = some rt1) :
    latchOf pc = 1 ∧ readOf pc = 0 ∧ writeOf pc = 0 ∧ rt1.b = rt.b ∧
    sumBusy rt1 = sumBusy rt + 1 := by
  cases c with
  | Subscribe _ _ _ _ => simp [handOff] at h
  | Shutdown _ => simp [handOff] at h
  | Publish ctx ev =>
    cases pc <;> simp only [handOff, reduceCtorEq] at h
    split at h
    · rename_i wk hw
      split at h
      · rename_i hc
        simp only [Option.some.injEq] at h
        subst h
        refine ⟨rfl, rfl, rfl, rfl, ?_⟩
        have := sum_map_set rt.workers w wk
          { wk with state := WorkerState.running { ctx := ctx, event := ev } }
          (fun wk => busyOf wk.state) hw
        simp only [hc.2.1, busyOf_idle, busyOf_running] at this
        simp only [sumBusy]
        omega
      · cases h
    · cases h

theorem stepWorker_spec (rt : Runtime) (w : Nat)
    (hb : sumBusy rt ≤ rt.b.inFlightListenerProcWaitGroup) :
    (∀ rt1 p, stepWorker rt w ≠ WorkerOut.panic rt1 p) ∧
    (∀ rt1, stepWorker rt w = WorkerOut.next rt1 →
      rt1.b.inFlightListenerProcWaitGroup + sumBusy rt =
        rt.b.inFlightListenerProcWaitGroup + sumBusy rt1 ∧
      rt1.b.topicChannelsLock = rt.b.topicChannelsLock ∧
      rt1.b.topicChannels = rt.b.topicChannels ∧
      rt1.b.topicListenerWorkerNum = rt.b.topicListenerWorkerNum) := by
  simp only [stepWorker]
  cases hw : rt.workers[w]? with
  | none => simp
  | some wk =>
    have hsum := fun wk1 => sum_map_set rt.workers w wk wk1 (fun wk => busyOf wk.state) hw
    have hle := le_sum_map rt.workers w wk (fun wk => busyOf wk.state) hw
    simp only [sumBusy] at hb ⊢
    cases hst : wk.state with
    | idle =>
      simp only [hst, busyOf_idle] at hsum hle ⊢
      constructor
      · intro rt1 p
        split <;> simp
      · intro rt1 h
        split at h
        · simp only [WorkerOut.next.injEq] at h
          subst h
          have := hsum { wk with state := WorkerState.exited }
          simp only [busyOf_exited] at this ⊢
          exact ⟨by omega, trivial, trivial, trivial⟩
        · cases h
    | running pair =>
      simp only [hst, busyOf_running] at hsum hle ⊢
      constructor
      · intro rt1 p
        simp
      · intro rt1 h
        simp only [WorkerOut.next.injEq] at h
        subst h
        have := hsum { wk with
          state := (WorkerState.finishing (runListener rt.b.config pair wk.listenerFunc rt.world).2) }
        simp only [busyOf_finishing] at this ⊢
        exact ⟨by omega, trivial, trivial, trivial⟩
    | finishing o =>
      simp only [hst, busyOf_finishing] at hsum hle ⊢
      have hpos : rt.b.inFlightListenerProcWaitGroup ≠ 0 := by omega
      have hd : execListenerDeferred rt.b o =
          some { rt.b with
            inFlightListenerProcWaitGroup := (rt.b.inFlightListenerProcWaitGroup - 1) } := by
        cases o <;> simp [execListenerDeferred, wgDone, hpos]
      simp only [hd]
      constructor
      · intro rt1 p
        simp
      · intro rt1 h
        simp only [WorkerOut.next.injEq] at h
        subst h
        have := hsum { wk with state := WorkerState.idle }
        simp only [busyOf_idle] at this ⊢
        exact ⟨by omega, trivial, trivial, trivial⟩
    | exited =>
      simp [hst]

theorem Sound_step (m m1 : Machine) (l : Label) (hs : Sound m) (hstep : step m l = some m1) :
    Sound m1 := by
  unfold step at hstep
  split at hstep
  · cases hstep
  · rename_i hcr
    cases l with
    | thr i =>
      simp only at hstep
      cases ht : m.threads[i]? with
      | none => simp [ht] at hstep
      | some t =>
        simp only [ht] at hstep
        cases hprog : t.prog with
        | nil => simp [hprog] at hstep
        | cons c rest =>
          simp only [hprog] at hstep
          cases hc : stepCall m.rt c t.pc with
          | blocked => simp [hc] at hstep
          | goto rt pc =>
            simp only [hc, Option.some.injEq] at hstep
            subst hstep
            exact Sound_thr m i t _ c rest rt pc _ hs ht hprog (by simp [hc, StepOut.move]) rfl
              (fun _ => hprog.symm)
          | ret rt r =>
            simp only [hc, Option.some.injEq] at hstep
            subst hstep
            exact Sound_thr m i t _ c rest rt PC.entry _ hs ht hprog (by simp [hc, StepOut.move])
              rfl (fun h => absurd rfl h)
          | panic rt p =>
            simp only [hc, Option.some.injEq] at hstep
            subst hstep
            obtain ⟨h1, h2, h3, h4, h5⟩ := stepCall_panic_keeps _ _ _ _ _ hc
            exact Sound_congr m _ hs rfl h1 h2 h3 h4 (by simp only [sumBusy, h5])
    | send i w =>
      simp only at hstep
      cases ht : m.threads[i]? with
      | none => simp [ht] at hstep
      | some t =>
        simp only [ht] at hstep
        cases hprog : t.prog with
        | nil => simp [hprog] at hstep
        | cons c rest =>
          simp only [hprog] at hstep
          cases hc : handOff m.rt c t.pc w with
          | none => simp [hc] at hstep
          | some rt =>
            simp only [hc, Option.some.injEq] at hstep
            subst hstep
            obtain ⟨hl, hr, hw, hb, hbusy⟩ := handOff_spec _ _ _ _ _ hc
            have hi := lt_of_getElem? _ _ _ ht
            have sl := sum_map_set m.threads i t { prog := c :: rest, pc := PC.deferDone none, results := t.results }
              (fun t => latchOf t.pc) ht
            have sr := sum_map_set m.threads i t { prog := c :: rest, pc := PC.deferDone none, results := t.results }
              (fun t => readOf t.pc) ht
            have sw := sum_map_set m.threads i t { prog := c :: rest, pc := PC.deferDone none, results := t.results }
              (fun t => writeOf t.pc) ht
            have e1 : latchOf (PC.deferDone none) = 0 := rfl
            have e2 : readOf (PC.deferDone none) = 0 := rfl
            have e3 : writeOf (PC.deferDone none) = 0 := rfl
            simp only [hl, hr, hw, e1, e2, e3] at sl sr sw
            constructor
            · have := hs.latch
              simp only [sumLatch] at this ⊢
              simp only [hb, hbusy]
              omega
            · have := hs.read
              simp only [sumRead] at this ⊢
              simp only [hb]
              omega
            · have := hs.write
              simp only [sumWrite] at this ⊢
              simp only [hb]
              omega
            · simpa only [hb] using hs.excl
            · intro T hT
              simp only [hb] at hT
              rcases hs.routed T hT with hn | ⟨k, tk, ctx, f, ics, rest1, ch, hk, hkp, hkc⟩
              · exact Or.inl (by simpa only [workerNum, hb] using hn)
              · right
                have hki : k ≠ i := by
                  intro hki
                  subst hki
                  rw [ht] at hk
                  cases hk
                  rw [hkc] at hl
                  simp [latchOf] at hl
                refine ⟨k, tk, ctx, f, ics, rest1, ch, ?_, hkp, hkc⟩
                simp only [List.getElem?_set_ne (Ne.symm hki)]
                exact hk
            · intro k tk ctx ev rest1 ch hk hkp hkc
              by_cases hki : k = i
              · subst hki
                simp only [List.getElem?_set_self hi, Option.some.injEq] at hk
                subst hk
                cases hkc
              · simp only [List.getElem?_set_ne (Ne.symm hki)] at hk
                simpa only [workerNum, hb] using hs.counted k tk ctx ev rest1 ch hk hkp hkc
    | wrk w =>
      simp only at hstep
      have hb : sumBusy m.rt ≤ m.rt.b.inFlightListenerProcWaitGroup := by
        have := hs.latch
        omega
      obtain ⟨hnp, hnext⟩ := stepWorker_spec m.rt w hb
      cases hc : stepWorker m.rt w with
      | blocked => simp [hc] at hstep
      | next rt =>
        simp only [hc, Option.some.injEq] at hstep
        subst hstep
        obtain ⟨h1, h2, h3, h4⟩ := hnext rt hc
        constructor
        · have := hs.latch
          simp only [sumLatch] at this ⊢
          omega
        · simpa only [sumRead, h2] using hs.read
        · simpa only [sumWrite, h2] using hs.write
        · simpa only [h2] using hs.excl
        · simpa only [workerNum, h3, h4] using hs.routed
        · simpa only [workerNum, h4] using hs.counted
      | panic rt p => exact absurd hc (hnp rt p)

theorem Sound_run (m m1 : Machine) (sched : List Label) (hs : Sound m)
    (hrun : run m sched = some m1) : Sound m1 := by
  induction sched generalizing m with
  | nil =>
    simp only [run, Option.some.injEq] at hrun
    subst hrun
    exact hs
  | cons l rest ih =>
    simp only [run] at hrun
    cases hstep : step m l with
    | none => simp [hstep] at hrun
    | some m2 =>
      simp only [hstep] at hrun
      exact ih m2 (Sound_step m m2 l hs hstep) hrun

theorem Sound_boot (opts : List BusOption) (world : Log) (progs : List (List Call)) :
    Sound (boot opts world progs) := by
  have hz : ∀ f : PC → Nat, f PC.entry = 0 →
      ((progs.map (fun prog => ({ prog := prog, pc := PC.entry, results := [] } : Thread))).map
        (fun t => f t.pc)).sum = 0 := by
    intro f hf
    induction progs with
    | nil => rfl
    | cons p ps ih => simp only [List.map_cons, List.sum_cons, hf, ih]
  constructor
  · simp only [sumLatch, sumBusy, boot, newRuntime]
    rw [hz latchOf rfl]
    simp
  · simp only [sumRead, boot]
    rw [hz readOf rfl]
    exact Nat.zero_le _
  · simp only [sumWrite, boot, newRuntime, NewBusChannel]
    rw [hz writeOf rfl]
    simp
  · simp [boot, newRuntime, NewBusChannel]
  · intro T hT
    simp [boot, newRuntime, NewBusChannel, mapGet] at hT
  · intro i t ctx ev rest ch ht _ hpc
    simp only [boot, List.getElem?_map] at ht
    cases hp : progs[i]? with
    | none => simp [hp] at ht
    | some p =>
      simp only [hp, Option.map_some', Option.some.injEq] at ht
      subst ht
      cases hpc

theorem Sound_reachable (m : Machine) (h : Reachable m) : Sound m := by
  obtain ⟨opts, world, progs, sched, hrun⟩ := h
  exact Sound_run _ _ sched (Sound_boot opts world progs) hrun

theorem execListener_of_pos (b : BusChannel) (pair : ctxEventPair) (listenerFunc : ListenerFunc)
    (world : Log) (h : 0 < b.inFlightListenerProcWaitGroup) :
    execListener b pair listenerFunc world =
      ((listenerFunc
          (WithTimeout pair.ctx (CoalesceOrEmpty b.config.ListenerTimeout _listenerExecTimeout))
          pair.event world).1,
        some { b with inFlightListenerProcWaitGroup := b.inFlightListenerProcWaitGroup - 1 }) := by
  have hne : b.inFlightListenerProcWaitGroup ≠ 0 := by omega
  simp only [execListener, runListener, execListenerDeferred, wgDone]
  split <;> simp [hne]

/-- C7: in every state the process reaches from a start (a fresh bus, any callers, any
schedule), a worker that holds a delivered pair (it is about to call the listener, or is
between the listener and the deferred function) finds the dispatch counter positive.  Hence,
whatever the listener does (return nil, return an error, panic), `execListener` on that bus
returns normally with the world the listener left, drops the listener's outcome, and changes
the bus only in that the dispatch counter is one less; the deferred function does so for every
outcome, and the next step of the worker does not crash the process. -/
theorem execListener_releases_one_latch (m : Machine) (w : Nat) (wk : Worker)
    (hreach : Reachable m) (hw : m.rt.workers[w]? = some wk)
    (hheld : (∃ pair, wk.state = WorkerState.running pair) ∨
      (∃ o, wk.state = WorkerState.finishing o)) :
    0 < m.rt.b.inFlightListenerProcWaitGroup ∧
    (∀ (pair : ctxEventPair) (listenerFunc : ListenerFunc) (world : Log),
      execListener m.rt.b pair listenerFunc world =
        ((listenerFunc
            (WithTimeout pair.ctx
              (CoalesceOrEmpty m.rt.b.config.ListenerTimeout _listenerExecTimeout))
            pair.event world).1,
          some { m.rt.b with
            inFlightListenerProcWaitGroup := m.rt.b.inFlightListenerProcWaitGroup - 1 })) ∧
    (∀ o : Outcome, execListenerDeferred m.rt.b o =
      some { m.rt.b with
        inFlightListenerProcWaitGroup := m.rt.b.inFlightListenerProcWaitGroup - 1 }) ∧
    (m.crashed = none → ∃ m1, step m (Label.wrk w) = some m1 ∧ m1.crashed = none) := by
  have hs := Sound_reachable m hreach
  have hle : busyOf wk.state ≤ (m.rt.workers.map (fun wk => busyOf wk.state)).sum :=
    le_sum_map m.rt.workers w wk (fun wk => busyOf wk.state) hw
  have hb : busyOf wk.state = 1 := by
    rcases hheld with ⟨pair, hp⟩ | ⟨o, ho⟩
    · rw [hp]; rfl
    · rw [ho]; rfl
  have hpos : 0 < m.rt.b.inFlightListenerProcWaitGroup := by
    have := hs.latch
    simp only [sumBusy] at this
    omega
  have hne : m.rt.b.inFlightListenerProcWaitGroup ≠ 0 := by omega
  refine ⟨hpos, fun pair f world => execListener_of_pos _ _ _ _ hpos, ?_, ?_⟩
  · intro o
    cases o <;> simp [execListenerDeferred, wgDone, hne]
  · intro hcr
    have hsb : sumBusy m.rt ≤ m.rt.b.inFlightListenerProcWaitGroup := by
      have := hs.latch
      omega
    obtain ⟨hnp, _⟩ := stepWorker_spec m.rt w hsb
    cases hc : stepWorker m.rt w with
    | blocked =>
      exfalso
      simp only [stepWorker, hw] at hc
      rcases hheld with ⟨pair, hp⟩ | ⟨o, ho⟩
      · simp [hp] at hc
      · simp only [ho] at hc
        split at hc <;> cases hc
    | next rt => exact ⟨{ m with rt := rt }, by simp [step, hcr, hc], hcr⟩
    | panic rt p => exact absurd hc (hnp rt p)

theorem map_singleton_inv {α β : Type} (f : α → β) (l : List α) (b : β) (h : l.map f = [b]) :
    ∃ a, l = [a] ∧ f a = b := by
  cases l with
  | nil => cases h
  | cons a t =>
    cases t with
    | nil => exact ⟨a, rfl, by simpa using h⟩
    | cons _ _ => simp at h

theorem execListener_releases_one_latch_witness :
    ∃ m wk, run delivering deliveringSched = some m ∧ m.rt.workers[0]? = some wk ∧
      wk.state = WorkerState.running { ctx := Background, event := evT } ∧
      0 < m.rt.b.inFlightListenerProcWaitGroup ∧
      ∃ m1, step m (Label.wrk 0) = some m1 ∧ m1.crashed = none := by
  have hobs : (run delivering deliveringSched).map
      (fun m => (m.rt.workers.map (fun wk => wk.state), m.crashed)) =
      some ([WorkerState.running { ctx := Background, event := evT }], none) := by decide!
  cases hr : run delivering deliveringSched with
  | none =>
    rw [hr] at hobs
    cases hobs
  | some m =>
    rw [hr] at hobs
    simp only [Option.map_some', Option.some.injEq, Prod.mk.injEq] at hobs
    obtain ⟨hws, hcr⟩ := hobs
    obtain ⟨wk, hwk, hst⟩ := map_singleton_inv _ _ _ hws
    have hw : m.rt.workers[0]? = some wk := by rw [hwk]; rfl
    have key := execListener_releases_one_latch m 0 wk ⟨[], [], _, deliveringSched, hr⟩ hw
      (Or.inl ⟨_, hst⟩)
    exact ⟨m, wk, rfl, hw, hst, key.1, key.2.2.2 hcr⟩

end Ludwig
